import Mathlib

/-!
# rrtcp-audio: AIFF container codec and duplex engine (`audio.go`)

A shallow embedding of `audio.go`.  The program's own functions (`readChunk`,
`processAudio`, the blocks of `main`) are transcribed statement by statement; a call
`chk(err)` with a non-nil error is the outcome `panic` (an `Except.error` in
`processAudio` and in the finalization block).  The Go standard-library calls they make
(`os.File`, `io.SectionReader`, `io.ReadFull`, `encoding/binary`) are modelled from the
library's behaviour:

* a byte is a `Nat` (the writers only ever produce values below 256, the readers
  make no assumption);
* `int64` offsets are unbounded `Int`s: every offset here is a file position plus at
  most a 32-bit length, far from the 64-bit range; the one computation that does
  overflow, `maxint64 - n` in `io.NewSectionReader` for a negative `n`, wraps
  (`int64`);
* `int` (`nSamples`, `remaining`) is an unbounded `Int`; the only place its width
  could show is the conversion `int32(...)` in the finalization block, and
  truncation to 32 bits gives the same result whether it is applied to the exact
  value or to the value already wrapped to the width of `int`;
* `int32`/`int16` values are `Int`s produced by the wrapping conversions `int32`,
  `int16` below;
* file contents are a `List Nat`, a cursor is a position in it; operating-system
  I/O failures are not modelled (reads and writes on an open regular file succeed).
-/

namespace Rrtcp

/-! ## Errors -/

/-- The error values that can reach `chk`, and the two run-time panics of
`processAudio` (nil `audio`, slice bound). -/
inductive Error
  | EOF
  | ErrUnexpectedEOF
  | ErrNoProgress
  | errWhence
  | errOffset
  | negativeOffset
  | nilPointer
  | sliceBounds
  deriving DecidableEq, Repr

/-! ## `encoding/binary`, big-endian -/

/-- Conversion to `int32`: two's-complement wrap into `[-2^31, 2^31)`. -/
def int32 (x : Int) : Int := (x + 2147483648) % 4294967296 - 2147483648

/-- Arithmetic in `int64`: two's-complement wrap into `[-2^63, 2^63)`. -/
def int64 (x : Int) : Int :=
  (x + 9223372036854775808) % 18446744073709551616 - 9223372036854775808

/-- Conversion to `int16`: two's-complement wrap into `[-2^15, 2^15)`. -/
def int16 (x : Int) : Int := (x + 32768) % 65536 - 32768

/-- Conversion of a signed value to `uint32` (its bit pattern). -/
def uint32 (x : Int) : Nat := (x % 4294967296).toNat

/-- Conversion of a signed value to `uint16` (its bit pattern). -/
def uint16 (x : Int) : Nat := (x % 65536).toNat

/-- `binary.BigEndian.PutUint32`. -/
def PutUint32 (v : Nat) : List Nat :=
  [v / 16777216 % 256, v / 65536 % 256, v / 256 % 256, v % 256]

/-- `binary.BigEndian.PutUint16`. -/
def PutUint16 (v : Nat) : List Nat := [v / 256 % 256, v % 256]

/-- `binary.BigEndian.Uint32` on the first four bytes of `b`. -/
def Uint32 (b : List Nat) : Nat :=
  b.getD 0 0 * 16777216 + b.getD 1 0 * 65536 + b.getD 2 0 * 256 + b.getD 3 0

/-- `binary.BigEndian.Uint16` on the first two bytes of `b`. -/
def Uint16 (b : List Nat) : Nat := b.getD 0 0 * 256 + b.getD 1 0

/-- The bytes `binary.Write(w, binary.BigEndian, int32(v))` hands to `w`. -/
def encodeInt32 (v : Int) : List Nat := PutUint32 (uint32 v)

/-- The bytes `binary.Write(w, binary.BigEndian, int16(v))` hands to `w`. -/
def encodeInt16 (v : Int) : List Nat := PutUint16 (uint16 v)

/-- The bytes `binary.Write(w, binary.BigEndian, s)` hands to `w` for `s []int32`. -/
def encodeInt32s : List Int → List Nat
  | [] => []
  | v :: vs => encodeInt32 v ++ encodeInt32s vs

/-- What `binary.Read` stores into an `[]int32` of `n` slots from `4*n` bytes. -/
def decodeInt32s : Nat → List Nat → List Int
  | 0, _ => []
  | n + 1, b => int32 (Uint32 b) :: decodeInt32s n (b.drop 4)

/-! ## `os.File` -/

/-- An open regular file: its contents and the cursor. -/
structure File where
  bytes : List Nat
  pos : Nat
  deriving DecidableEq, Repr

/-- `(*os.File).Read` with a buffer of `n` bytes: one read at the cursor; `io.EOF`
with no bytes at or beyond the end of the file. -/
def File.Read (f : File) (n : Nat) : List Nat × Option Error × File :=
  if n = 0 then ([], none, f)
  else
    let b := (f.bytes.drop f.pos).take n
    if b.length = 0 then ([], some Error.EOF, f)
    else (b, none, { f with pos := f.pos + b.length })

/-- `(*os.File).ReadAt` with a buffer of `n` bytes: reads until the buffer is full,
`io.EOF` when the file ends first. -/
def File.ReadAt (bytes : List Nat) (n : Nat) (off : Int) : List Nat × Option Error :=
  if off < 0 then ([], some Error.negativeOffset)
  else
    let b := (bytes.drop off.toNat).take n
    (b, if b.length < n then some Error.EOF else none)

/-- `(*os.File).Seek`: whence 0, 1, 2 are start, current, end; a negative target is
refused, a target beyond the end is accepted. -/
def File.Seek (f : File) (offset : Int) (whence : Nat) : Int × Option Error × File :=
  let target : Option Int :=
    match whence with
    | 0 => some offset
    | 1 => some (f.pos + offset)
    | 2 => some (f.bytes.length + offset)
    | _ => none
  match target with
  | none => (0, some Error.errWhence, f)
  | some t =>
    if t < 0 then (0, some Error.errOffset, f)
    else (t, none, { f with pos := t.toNat })

/-- `(*os.File).Write`: overwrites at the cursor, extends the file as needed (a gap
left by a seek beyond the end reads as zeros), and moves the cursor. -/
def File.Write (f : File) (b : List Nat) : File :=
  if b.length = 0 then f
  else
    { bytes := (f.bytes ++ List.replicate (f.pos - f.bytes.length) 0).take f.pos
                 ++ b ++ f.bytes.drop (f.pos + b.length),
      pos := f.pos + b.length }

/-! ## `io.ReaderAt` and `io.SectionReader` -/

/-- What a `SectionReader` holds as its underlying `io.ReaderAt`: the input file, or
another section of it. -/
inductive ReaderAt
  | file (bytes : List Nat)
  | sect (r : ReaderAt) (base limit : Int)
  deriving DecidableEq, Repr

/-- `ReadAt` of either implementation, with a buffer of `n` bytes. -/
def ReaderAt.ReadAt : ReaderAt → Nat → Int → List Nat × Option Error
  | ReaderAt.file bytes, n, off => File.ReadAt bytes n off
  | ReaderAt.sect r base limit, n, off =>
    if off < 0 ∨ off ≥ limit - base then ([], some Error.EOF)
    else
      let off1 := off + base
      let max := limit - off1
      if (n : Int) > max then
        let res := r.ReadAt max.toNat off1
        (res.1, if res.2 = none then some Error.EOF else res.2)
      else r.ReadAt n off1

/-- The type `io.SectionReader`. -/
structure SectionReader where
  r : ReaderAt
  base : Int
  off : Int
  limit : Int
  deriving DecidableEq, Repr

/-- `io.NewSectionReader(r, off, n)`: the section ends at `off + n`, or at the largest
`int64` when `off > maxint64 - n`.  The subtraction is an `int64` one, so it wraps for
every negative `n`, and a section made from a negative length reaches to the end of
the underlying reader. -/
def NewSectionReader (r : ReaderAt) (off n : Int) : SectionReader :=
  let maxint64 : Int := 9223372036854775807
  let remaining : Int := if off ≤ int64 (maxint64 - n) then int64 (n + off) else maxint64
  { r := r, base := off, off := off, limit := remaining }

/-- `(*SectionReader).Read` with a buffer of `n` bytes. -/
def SectionReader.Read (s : SectionReader) (n : Nat) :
    List Nat × Option Error × SectionReader :=
  if s.off ≥ s.limit then ([], some Error.EOF, s)
  else
    let max := s.limit - s.off
    let n1 := if (n : Int) > max then max.toNat else n
    let res := s.r.ReadAt n1 s.off
    (res.1, res.2, { s with off := s.off + res.1.length })

/-- `(*SectionReader).Seek`. -/
def SectionReader.Seek (s : SectionReader) (offset : Int) (whence : Nat) :
    Int × Option Error × SectionReader :=
  let target : Option Int :=
    match whence with
    | 0 => some (offset + s.base)
    | 1 => some (offset + s.off)
    | 2 => some (offset + s.limit)
    | _ => none
  match target with
  | none => (0, some Error.errWhence, s)
  | some t =>
    if t < s.base then (0, some Error.errOffset, s)
    else (t - s.base, none, { s with off := t })

/-- The interface `readerAtSeeker` of `audio.go`: `io.Reader`, `io.ReaderAt`,
`io.Seeker`.  `asReaderAt` is the receiver seen as an `io.ReaderAt`. -/
class readerAtSeeker (ρ : Type) where
  Read : ρ → Nat → List Nat × Option Error × ρ
  asReaderAt : ρ → ReaderAt
  Seek : ρ → Int → Nat → Int × Option Error × ρ

instance : readerAtSeeker File where
  Read := File.Read
  asReaderAt f := ReaderAt.file f.bytes
  Seek := File.Seek

instance : readerAtSeeker SectionReader where
  Read := SectionReader.Read
  asReaderAt s := ReaderAt.sect s.r s.base s.limit
  Seek := SectionReader.Seek

/-- The loop of `io.ReadAtLeast(r, buf, min)` with `min = len(buf) = need`: `acc` is
what has been read so far.  `fuel` bounds the iterations; a reader that keeps
returning no bytes and no error would make the Go loop spin, which shows here as
`ErrNoProgress`. -/
def ReadAtLeastLoop {ρ : Type} [readerAtSeeker ρ] :
    Nat → ρ → Nat → List Nat → List Nat × Option Error × ρ
  | 0, r, _, acc => (acc, some Error.ErrNoProgress, r)
  | fuel + 1, r, need, acc =>
    if need ≤ acc.length then (acc, none, r)
    else
      let res := readerAtSeeker.Read r (need - acc.length)
      let acc1 := acc ++ res.1
      match res.2.1 with
      | none => ReadAtLeastLoop fuel res.2.2 need acc1
      | some e =>
        if need ≤ acc1.length then (acc1, none, res.2.2)
        else if 0 < acc1.length ∧ e = Error.EOF then (acc1, some Error.ErrUnexpectedEOF, res.2.2)
        else (acc1, some e, res.2.2)

/-- `io.ReadFull(r, buf)` with `len(buf) = n`. -/
def ReadFull {ρ : Type} [readerAtSeeker ρ] (r : ρ) (n : Nat) : List Nat × Option Error × ρ :=
  ReadAtLeastLoop (n + 1) r n []

/-! ## `audio.go` -/

/-- The type `ID` of `audio.go`: four bytes. -/
abbrev ID := List Nat

/-- The zero value of `ID`. -/
def ID.zero : ID := [0, 0, 0, 0]

/-- The string "FORM" as bytes. -/
def FORM : ID := [70, 79, 82, 77]
/-- The string "AIFF" as bytes. -/
def AIFF : ID := [65, 73, 70, 70]
/-- The string "COMM" as bytes. -/
def COMM : ID := [67, 79, 77, 77]
/-- The string "SSND" as bytes. -/
def SSND : ID := [83, 83, 78, 68]

/-- The effect of `r.Read(id[:])` on the array `id`: the bytes read replace its
first bytes, the rest stays. -/
def ID.fill (id : ID) (b : List Nat) : ID := b ++ id.drop b.length

/-- The struct `commonChunk` of `audio.go`. -/
structure commonChunk where
  NumChans : Int
  NumSamples : Int
  BitsPerSample : Int
  SampleRate : List Nat
  deriving DecidableEq, Repr

/-- The zero value of `commonChunk` (the package variable `c` before `main`). -/
def commonChunk.zero : commonChunk :=
  { NumChans := 0, NumSamples := 0, BitsPerSample := 0,
    SampleRate := [0, 0, 0, 0, 0, 0, 0, 0, 0, 0] }

/-- What `binary.Read(chunk, binary.BigEndian, &c)` stores from the 18 bytes it
read: the fields in declaration order. -/
def commonChunk.decode (b : List Nat) : commonChunk :=
  { NumChans := int16 (Uint16 (b.take 2)),
    NumSamples := int32 (Uint32 ((b.drop 2).take 4)),
    BitsPerSample := int16 (Uint16 ((b.drop 6).take 2)),
    SampleRate := (b.drop 8).take 10 }

/-- The result of `readChunk`: the named results `id`, `data`, `err`, and the
source `r` as the call leaves it. -/
structure ChunkResult (ρ : Type) where
  id : ID
  data : Option SectionReader
  err : Option Error
  r : ρ

/-- `readChunk` (audio.go 161-175). -/
def readChunk {ρ : Type} [readerAtSeeker ρ] (r : ρ) : ChunkResult ρ :=
  let rd := readerAtSeeker.Read r 4
  let id := ID.fill ID.zero rd.1
  match rd.2.1 with
  | some e => { id := id, data := none, err := some e, r := rd.2.2 }
  | none =>
    let rf := ReadFull rd.2.2 4
    match rf.2.1 with
    | some e => { id := id, data := none, err := some e, r := rf.2.2 }
    | none =>
      let n := int32 (Uint32 rf.1)
      let sk := readerAtSeeker.Seek rf.2.2 0 1
      let data := NewSectionReader (readerAtSeeker.asReaderAt sk.2.2) sk.1 n
      let sk2 := readerAtSeeker.Seek sk.2.2 n 1
      { id := id, data := some data, err := sk2.2.1, r := sk2.2.2 }

/-- How a run of the reading part of `main` ends. -/
inductive Outcome
  | badFormat
  | panic (e : Error)
  | parsed (c : commonChunk) (audio : Option SectionReader)
  deriving DecidableEq, Repr

/-- The chunk scan loop of `main` (audio.go 60-75) over the FORM payload `data`,
starting from the current values of the package variables `c` and `audio`.
`none` when `fuel` iterations did not end the loop.  (`readChunk` returns a nil view only
together with an error; the branch for a nil view without error stands for the nil
dereference that would follow and is never taken.) -/
def scanLoop : Nat → SectionReader → commonChunk → Option SectionReader → Option Outcome
  | 0, _, _, _ => none
  | fuel + 1, data, c, audio =>
    let res := readChunk data
    match res.err with
    | some Error.EOF => some (Outcome.parsed c audio)
    | some e => some (Outcome.panic e)
    | none =>
      match res.data with
      | none => some (Outcome.panic Error.nilPointer)
      | some chunk =>
        if res.id = COMM then
          let rf := ReadFull chunk 18
          match rf.2.1 with
          | some e => some (Outcome.panic e)
          | none => scanLoop fuel res.r (commonChunk.decode rf.1) audio
        else if res.id = SSND then
          let sk := SectionReader.Seek chunk 8 1
          scanLoop fuel res.r c (some sk.2.2)
        else scanLoop fuel res.r c audio

/-- The container reader of `main` (audio.go 48-75): outer chunk, FORM/AIFF check,
chunk scan. -/
def mainRead (fuel : Nat) (infile : File) : Option Outcome :=
  let res := readChunk infile
  match res.err with
  | some e => some (Outcome.panic e)
  | none =>
    if res.id ≠ FORM then some Outcome.badFormat
    else
      match res.data with
      | none => some (Outcome.panic Error.nilPointer)
      | some data =>
        let rd := SectionReader.Read data 4
        let id := ID.fill res.id rd.1
        match rd.2.1 with
        | some e => some (Outcome.panic e)
        | none =>
          if id ≠ AIFF then some Outcome.badFormat
          else scanLoop fuel rd.2.2 commonChunk.zero none

/-- The container writer of `main` (audio.go 77-99) on the freshly created output
file. -/
def mainWriteHeader (outfile : File) : File :=
  let f := outfile.Write FORM
  let f := f.Write (encodeInt32 0)
  let f := f.Write AIFF
  let f := f.Write COMM
  let f := f.Write (encodeInt32 18)
  let f := f.Write (encodeInt16 1)
  let f := f.Write (encodeInt32 0)
  let f := f.Write (encodeInt16 32)
  let f := f.Write [0x40, 0x0e, 0xac, 0x44, 0, 0, 0, 0, 0, 0]
  let f := f.Write SSND
  let f := f.Write (encodeInt32 0)
  let f := f.Write (encodeInt32 0)
  f.Write (encodeInt32 0)

/-- The start of `main` (audio.go 40-100): the output file is created (and emptied)
first, then the input is read; only a run that gets through the chunk scan goes on to
write the header.  The result is how the reading ended and the output file at that
point; `none` when `fuel` iterations did not end the scan. -/
def mainOpen (fuel : Nat) (infile : File) : Option (Outcome × File) :=
  let outfile : File := { bytes := [], pos := 0 }
  match mainRead fuel infile with
  | none => none
  | some (Outcome.parsed c audio) => some (Outcome.parsed c audio, mainWriteHeader outfile)
  | some o => some (o, outfile)

/-- The deferred finalization block of `main` (audio.go 101-114); `Except.error` is
the panic of a `chk` after a failed seek. -/
def mainFinalize (outfile : File) (nSamples : Int) : Except Error File :=
  let totalBytes := 4 + 8 + 18 + 8 + 8 + 4 * nSamples
  let sk := outfile.Seek 4 0
  match sk.2.1 with
  | some e => Except.error e
  | none =>
    let f := sk.2.2.Write (encodeInt32 (int32 totalBytes))
    let sk := f.Seek 22 0
    match sk.2.1 with
    | some e => Except.error e
    | none =>
      let f := sk.2.2.Write (encodeInt32 (int32 nSamples))
      let sk := f.Seek 42 0
      match sk.2.1 with
      | some e => Except.error e
      | none => Except.ok (sk.2.2.Write (encodeInt32 (int32 (4 * nSamples + 8))))

/-- The package variables the callback works on. -/
structure Globals where
  outfile : File
  nSamples : Int
  audio : Option SectionReader
  remaining : Int
  deriving DecidableEq, Repr

/-- `binary.Read(audio, binary.BigEndian, out)` for `out []int32` of `n` slots: the
error with the reader as the failed read leaves it, or the decoded samples with the
reader behind them.  With `n = 0` nothing is read at all (also when `audio` is
nil); a nil `audio` with `n > 0` is a nil dereference. -/
def binaryReadInt32s (audio : Option SectionReader) (n : Nat) :
    Except (Error × Option SectionReader) (List Int × Option SectionReader) :=
  if n = 0 then Except.ok ([], audio)
  else
    match audio with
    | none => Except.error (Error.nilPointer, none)
    | some a =>
      let rf := ReadFull a (4 * n)
      match rf.2.1 with
      | some e => Except.error (e, some rf.2.2)
      | none => Except.ok (decodeInt32s n rf.1, some rf.2.2)

/-- `processAudio` (audio.go 146-159).  The result is the new package state and the
caller's `out` buffer as the call leaves it; `Except.error` is a panic. -/
def processAudio (g : Globals) (in_ out : List Int) : Except Error (Globals × List Int) :=
  let outfile := g.outfile.Write (encodeInt32s in_)
  let nSamples := g.nSamples + in_.length
  if (out.length : Int) > g.remaining ∧ g.remaining < 0 then Except.error Error.sliceBounds
  else
    let n : Nat := if (out.length : Int) > g.remaining then g.remaining.toNat else out.length
    match binaryReadInt32s g.audio n with
    | Except.error (Error.EOF, audio) =>
      Except.ok ({ outfile := outfile, nSamples := nSamples, audio := audio,
                   remaining := g.remaining }, out)
    | Except.error (e, _) => Except.error e
    | Except.ok (samples, audio) =>
      Except.ok ({ outfile := outfile, nSamples := nSamples, audio := audio,
                   remaining := g.remaining - n }, samples ++ out.drop n)

/-- A sequence of callbacks: `processAudio` on each pair of capture block and
playback slot in turn, stopping at the first panic. -/
def runCallbacks (g : Globals) : List (List Int × List Int) → Except Error Globals
  | [] => Except.ok g
  | (in_, out) :: rest =>
    match processAudio g in_ out with
    | Except.error e => Except.error e
    | Except.ok (g1, _) => runCallbacks g1 rest

/-! ## Auxiliary definitions for the statements -/

/-- Overwriting `b` at position `p` of `l`. -/
def overwrite (l : List Nat) (p : Nat) (b : List Nat) : List Nat :=
  l.take p ++ b ++ l.drop (p + b.length)

/-- The output file of the scenario: the header followed by 192 captured samples. -/
def scenarioOutput : File :=
  File.Write (mainWriteHeader { bytes := [], pos := 0 }) (encodeInt32s (List.replicate 192 1))

/-- The bytes visible through an `io.ReaderAt`: the whole file, or the window of the
underlying reader that a section covers. -/
def ReaderAt.view : ReaderAt → List Nat
  | ReaderAt.file b => b
  | ReaderAt.sect r base limit => ((ReaderAt.view r).drop base.toNat).take (limit - base).toNat

/-- Every section in the chain starts at a non-negative offset (what
`NewSectionReader` gets from a cursor). -/
def ReaderAt.WF : ReaderAt → Prop
  | ReaderAt.file _ => True
  | ReaderAt.sect r base _ => 0 ≤ base ∧ ReaderAt.WF r

/-- The bytes a `SectionReader` still has to deliver: from its cursor to its limit, as
far as the underlying reader holds them. -/
def SectionReader.avail (s : SectionReader) : List Nat :=
  ((s.r.view).drop s.off.toNat).take (s.limit - s.off).toNat

/-- The bytes of a file from its cursor on. -/
def File.avail (f : File) : List Nat := f.bytes.drop f.pos

/-- A file holding one chunk "NAME" of odd length 3 and the tag of a next chunk. -/
def framingFile : File :=
  { bytes := [78, 65, 77, 69, 0, 0, 0, 3, 1, 2, 3, 83, 83, 78, 68], pos := 0 }

/-- The FORM payload of a container holding the same bytes as `framingFile`, with the
cursor behind the form type. -/
def framingSection : SectionReader :=
  { r := ReaderAt.file
      ([70, 79, 82, 77, 0, 0, 0, 19, 65, 73, 70, 70] ++ framingFile.bytes),
    base := 8, off := 12, limit := 27 }

/-- What a chunk view delivers to sequential reads: every `io.ReadFull` yields a prefix
of `payload`, reading `payload.length` bytes yields all of it without error, and after
that every read reports `io.EOF` with no bytes. -/
def ReadsExactly (d : SectionReader) (payload : List Nat) : Prop :=
  (∀ n, (ReadFull d n).1 = payload.take n) ∧
  (ReadFull d payload.length).1 = payload ∧
  (ReadFull d payload.length).2.1 = none ∧
  (∀ n, 0 < n →
    ReadFull (ReadFull d payload.length).2.2 n =
      ([], some Error.EOF, (ReadFull d payload.length).2.2))

/-- The captured samples of a sequence of callbacks, in order. -/
def captured : List (List Int × List Int) → List Int
  | [] => []
  | c :: rest => c.1 ++ captured rest

/-- The total number of playback slots a sequence of callbacks offers. -/
def slots : List (List Int × List Int) → Nat
  | [] => 0
  | c :: rest => c.2.length + slots rest

/-- A playback source of 128 samples (512 zero bytes behind an 8-byte sub-header), as
the reader leaves it for the SSND chunk of a container whose FORM payload starts at
offset 8 and whose SSND chunk header is at offset 38. -/
def scenarioAudio : SectionReader :=
  { r := ReaderAt.sect (ReaderAt.file (List.replicate 566 0)) 8 566,
    base := 38, off := 46, limit := 558 }

/-- The package state at stream start in the scenario: header written, `remaining`
seeded with the sample count 128. -/
def scenarioStart : Globals :=
  { outfile := mainWriteHeader { bytes := [], pos := 0 }, nSamples := 0,
    audio := some scenarioAudio, remaining := 128 }

/-- A chunk of a container file: a tag and a payload. -/
structure Chunk where
  tag : List Nat
  payload : List Nat
  deriving DecidableEq, Repr

/-- The bytes of a chunk in a file: tag, big-endian 32-bit payload length, payload (no
padding). -/
def Chunk.bytes (ch : Chunk) : List Nat := ch.tag ++ PutUint32 ch.payload.length ++ ch.payload

/-- The bytes of a list of sibling chunks. -/
def chunksBytes : List Chunk → List Nat
  | [] => []
  | ch :: rest => ch.bytes ++ chunksBytes rest

/-- The bytes of a FORM/AIFF container file holding the given chunks: "FORM", the
length of what follows, "AIFF", the chunks. -/
def container (chs : List Chunk) : List Nat :=
  FORM ++ PutUint32 (4 + (chunksBytes chs).length) ++ AIFF ++ chunksBytes chs

/-- A chunk the reader can frame: a 4-byte tag, a payload length that fits the signed
32-bit length field, and at least the 18 bytes of a `commonChunk` when the tag is
"COMM". -/
def Chunk.WF (ch : Chunk) : Prop :=
  ch.tag.length = 4 ∧ ch.payload.length < 2147483648 ∧ (ch.tag = COMM → 18 ≤ ch.payload.length)

/-- The value of the package variable `c` after the chunks: each "COMM" chunk
overwrites it with its decoded first 18 bytes. -/
def expectedC : commonChunk → List Chunk → commonChunk
  | c, [] => c
  | c, ch :: rest =>
    expectedC (if ch.tag = COMM then commonChunk.decode (ch.payload.take 18) else c) rest

/-- The bytes the package variable `audio` has to deliver after the chunks: those of
the last "SSND" payload behind its first 8 bytes; `none` while `audio` is nil. -/
def expectedAudio : Option (List Nat) → List Chunk → Option (List Nat)
  | b, [] => b
  | b, ch :: rest =>
    expectedAudio (if ch.tag = COMM then b else if ch.tag = SSND then some (ch.payload.drop 8)
      else b) rest

/-- The package variable `audio` delivers the bytes `b`: nil for `none`, otherwise a
section reader whose bytes from its cursor to its limit are `b`. -/
def AudioHolds : Option SectionReader → Option (List Nat) → Prop
  | none, none => True
  | some a, some b => a.r.WF ∧ 0 ≤ a.off ∧ a.avail = b
  | _, _ => False

/-- The results of a sequence of `io.ReadFull` calls on a source, with buffers of the
given sizes: for each call the bytes read and the error. -/
def readSeq (a : SectionReader) : List Nat → List (List Nat × Option Error)
  | [] => []
  | n :: ns => ((ReadFull a n).1, (ReadFull a n).2.1) :: readSeq (ReadFull a n).2.2 ns

/-- Two values of the package variable `audio` yield the same bytes: both nil, or both
answer every sequence of reads alike. -/
def SameReads : Option SectionReader → Option SectionReader → Prop
  | none, none => True
  | some x, some y => ∀ ns, readSeq x ns = readSeq y ns
  | _, _ => False

instance (ch : Chunk) : Decidable ch.WF := by
  unfold Chunk.WF
  exact inferInstance

/-- A small container: a COMM chunk (1 channel, 3 samples, 32 bits, 44100 Hz), an
unknown chunk "NAME" of odd length, and an SSND chunk of three samples. -/
def sampleChunks : List Chunk :=
  [{ tag := COMM, payload := [0, 1, 0, 0, 0, 3, 0, 32, 64, 14, 172, 68, 0, 0, 0, 0, 0, 0] },
   { tag := [78, 65, 77, 69], payload := [1, 2, 3] },
   { tag := SSND,
     payload := [0, 0, 0, 0, 0, 0, 0, 0, 0, 0, 0, 1, 255, 255, 255, 255, 0, 0, 1, 0] }]

/-- A capture-only start state: header written, no playback source. -/
def captureStart : Globals :=
  { outfile := mainWriteHeader { bytes := [], pos := 0 }, nSamples := 0, audio := none,
    remaining := 0 }

/-- Two callbacks capturing three samples, the playback slots left unfilled. -/
def captureCalls : List (List Int × List Int) := [([1, -2], [0, 0]), ([256], [5])]

/-- The package state after `captureCalls` on `captureStart`. -/
def captureEnd : Globals :=
  { outfile :=
      { bytes := (mainWriteHeader { bytes := [], pos := 0 }).bytes ++
                   [0, 0, 0, 1, 255, 255, 255, 254, 0, 0, 1, 0],
        pos := 66 },
    nSamples := 3, audio := none, remaining := 0 }

/-- An input that is not a container and whose bytes 4 to 8, read as a big-endian
`int32`, are negative (the first bytes of a gzip file). -/
def gzipLikeFile : File :=
  { bytes := [0x1f, 0x8b, 0x08, 0x00, 0x80, 0x5e, 0x1a, 0x66, 0x00, 0x03, 0x4b, 0x4c], pos := 0 }

/-- An input whose outer tag is "RIFF". -/
def riffFile : File :=
  { bytes := [82, 73, 70, 70, 0, 0, 0, 4, 87, 65, 86, 69], pos := 0 }

/-- An input whose outer tag is "FORM" and whose form type is "AIFC". -/
def aifcFile : File :=
  { bytes := [70, 79, 82, 77, 0, 0, 0, 4, 65, 73, 70, 67], pos := 0 }

/-- A playback source of three samples 1, 2, -1. -/
def fillSource : SectionReader :=
  { r := ReaderAt.file [0, 0, 0, 1, 0, 0, 0, 2, 255, 255, 255, 255], base := 0, off := 0,
    limit := 12 }

/-- A package state with two samples left to play from `fillSource`. -/
def fillStart : Globals :=
  { outfile := mainWriteHeader { bytes := [], pos := 0 }, nSamples := 0,
    audio := some fillSource, remaining := 2 }

/-- A container with a COMM chunk (128 samples) and no SSND chunk. -/
def noSoundChunks : List Chunk :=
  [{ tag := COMM, payload := [0, 1, 0, 0, 0, 128, 0, 32, 64, 14, 172, 68, 0, 0, 0, 0, 0, 0] }]

/-- A file holding a chunk whose length field has the top bit set (FF FF FF F8). -/
def topBitLengthFile : File :=
  { bytes := [83, 83, 78, 68, 255, 255, 255, 248, 0, 0, 0, 0, 0, 0, 0, 0], pos := 0 }

/-- A file whose cursor is at its end. -/
def exhaustedFile : File := { bytes := [70, 79, 82, 77], pos := 4 }

/-- A FORM payload whose cursor is at its limit, behind one "NAME" chunk. -/
def exhaustedSection : SectionReader := { framingSection with off := 27 }

/-- A FORM/AIFF file whose only chunk, "JUNK", has the length bytes FF FF FF F8. -/
def loopFile : File :=
  { bytes := [70, 79, 82, 77, 0, 0, 0, 12, 65, 73, 70, 70, 74, 85, 78, 75, 255, 255, 255, 248],
    pos := 0 }

/-- The FORM payload of `loopFile` with the cursor behind the form type, on the "JUNK"
chunk. -/
def loopData : SectionReader :=
  { r := ReaderAt.file loopFile.bytes, base := 8, off := 12, limit := 20 }

/-- The package state after one callback with a 3-slot buffer on `fillStart`. -/
def fillEnd : Globals :=
  { outfile := File.Write (mainWriteHeader { bytes := [], pos := 0 }) (encodeInt32s [5]),
    nSamples := 1, audio := some { fillSource with off := 8 }, remaining := 0 }

/-! ## Lemmas and theorems -/

theorem encodeInt32_length (v : Int) : (encodeInt32 v).length = 4 := rfl

theorem encodeInt32s_length (l : List Int) : (encodeInt32s l).length = 4 * l.length := by
  induction l with
  | nil => rfl
  | cons v vs ih =>
    simp only [encodeInt32s, List.length_append, encodeInt32_length, ih, List.length_cons]
    omega

theorem encodeInt32s_bytes (l : List Int) :
    encodeInt32s l = l.flatMap
        (fun v : Int =>
          [(v % 4294967296).toNat / 16777216 % 256, (v % 4294967296).toNat / 65536 % 256,
           (v % 4294967296).toNat / 256 % 256, (v % 4294967296).toNat % 256]) := by
  induction l with
  | nil => rfl
  | cons v vs ih =>
    rw [List.flatMap_cons, ← ih]
    rfl

theorem int32_Uint32_encodeInt32 (v : Int) (h1 : -2147483648 ≤ v) (h2 : v < 2147483648) :
    int32 (Uint32 (encodeInt32 v)) = v := by
  simp only [int32, Uint32, encodeInt32, PutUint32, uint32, List.getD_cons_zero, List.getD_cons_succ]
  omega

theorem encodeInt32_int32 (v : Int) : encodeInt32 (int32 v) = encodeInt32 v := by
  simp only [encodeInt32, uint32, int32]
  congr 2
  omega

theorem File.Write_eq (f : File) (b : List Nat) (h : f.pos ≤ f.bytes.length) :
    f.Write b = { bytes := overwrite f.bytes f.pos b, pos := f.pos + b.length } := by
  unfold File.Write overwrite
  split
  · rename_i hb
    have : b = [] := List.length_eq_zero.mp hb
    subst this
    simp
  · simp [List.take_append_of_le_length h]

theorem overwrite_length (l : List Nat) (p : Nat) (b : List Nat) (h : p + b.length ≤ l.length) :
    (overwrite l p b).length = l.length := by
  simp [overwrite]; omega

theorem overwrite_getElem? (l : List Nat) (p : Nat) (b : List Nat) (h : p + b.length ≤ l.length)
    (i : Nat) :
    (overwrite l p b)[i]? = if p ≤ i ∧ i < p + b.length then b[i - p]? else l[i]? := by
  unfold overwrite
  rw [List.append_assoc]
  by_cases h1 : i < p
  · rw [List.getElem?_append_left (by simp; omega)]
    have : ¬ (p ≤ i ∧ i < p + b.length) := by omega
    simp [List.getElem?_take, h1, this]
  · rw [List.getElem?_append_right (by simp; omega)]
    simp only [List.length_take, Nat.min_eq_left (show p ≤ l.length by omega)]
    by_cases h2 : i < p + b.length
    · rw [List.getElem?_append_left (by omega)]
      have : (p ≤ i ∧ i < p + b.length) := by omega
      simp [this]
    · rw [List.getElem?_append_right (by omega)]
      have : ¬ (p ≤ i ∧ i < p + b.length) := by omega
      simp [this]
      congr 1; omega

theorem Uint32_field (l : List Nat) (p : Nat) (b : List Nat)
    (h : ∀ k, k < 4 → l[p + k]? = b[k]?) : Uint32 ((l.drop p).take 4) = Uint32 b := by
  have e : ∀ k, k < 4 → ((l.drop p).take 4).getD k 0 = b.getD k 0 := by
    intro k hk
    rw [List.getD_eq_getElem?_getD, List.getD_eq_getElem?_getD, List.getElem?_take,
      List.getElem?_drop, if_pos hk, h k hk]
  simp only [Uint32, e 0 (by omega), e 1 (by omega), e 2 (by omega), e 3 (by omega)]

theorem mainFinalize_eq (f : File) (N : Int) (hlen : 46 ≤ f.bytes.length) :
    mainFinalize f N = Except.ok
      { bytes := overwrite (overwrite (overwrite f.bytes 4 (encodeInt32 (46 + 4 * N))) 22
          (encodeInt32 N)) 42 (encodeInt32 (4 * N + 8)),
        pos := 46 } := by
  have l1 : (overwrite f.bytes 4 (encodeInt32 (46 + 4 * N))).length = f.bytes.length :=
    overwrite_length _ _ _ (by simp [encodeInt32_length]; omega)
  have l2 : (overwrite (overwrite f.bytes 4 (encodeInt32 (46 + 4 * N))) 22
      (encodeInt32 N)).length = f.bytes.length := by
    rw [overwrite_length _ _ _ (by simp [encodeInt32_length]; omega), l1]
  have e0 : (4 : Int) + 8 + 18 + 8 + 8 + 4 * N = 46 + 4 * N := by ring
  simp only [mainFinalize, File.Seek, encodeInt32_int32, e0]
  norm_num
  have t4 : Int.toNat 4 = 4 := rfl
  have t22 : Int.toNat 22 = 22 := rfl
  have t42 : Int.toNat 42 = 42 := rfl
  rw [t4, t22, t42]
  rw [File.Write_eq { bytes := f.bytes, pos := 4 } _ (by simp; omega)]
  simp only []
  rw [File.Write_eq { bytes := overwrite f.bytes 4 (encodeInt32 (46 + 4 * N)), pos := 22 } _
    (by simp [l1]; omega)]
  simp only []
  rw [File.Write_eq _ _ (by simp [l2]; omega)]
  simp [encodeInt32_length]

theorem finalized_getElem? (l : List Nat) (e1 e2 e3 : List Nat) (h1 : e1.length = 4)
    (h2 : e2.length = 4) (h3 : e3.length = 4) (hlen : 46 ≤ l.length) (i : Nat) :
    (overwrite (overwrite (overwrite l 4 e1) 22 e2) 42 e3)[i]? =
      if 4 ≤ i ∧ i < 8 then e1[i - 4]?
      else if 22 ≤ i ∧ i < 26 then e2[i - 22]?
      else if 42 ≤ i ∧ i < 46 then e3[i - 42]?
      else l[i]? := by
  have l1 : (overwrite l 4 e1).length = l.length := overwrite_length _ _ _ (by omega)
  have l2 : (overwrite (overwrite l 4 e1) 22 e2).length = l.length := by
    rw [overwrite_length _ _ _ (by omega), l1]
  rw [overwrite_getElem? _ _ _ (by omega), overwrite_getElem? _ _ _ (by omega),
    overwrite_getElem? _ _ _ (by omega), h1, h2, h3]
  by_cases c1 : 4 ≤ i ∧ i < 8
  · have n2 : ¬ (22 ≤ i ∧ i < 22 + 4) := by omega
    have n3 : ¬ (42 ≤ i ∧ i < 42 + 4) := by omega
    have c1b : 4 ≤ i ∧ i < 4 + 4 := by omega
    simp [c1, n2, n3, c1b]
  · have c1b : ¬ (4 ≤ i ∧ i < 4 + 4) := by omega
    by_cases c2 : 22 ≤ i ∧ i < 26
    · have n3 : ¬ (42 ≤ i ∧ i < 42 + 4) := by omega
      have c2b : 22 ≤ i ∧ i < 22 + 4 := by omega
      simp [c1, c2, n3, c2b]
    · have c2b : ¬ (22 ≤ i ∧ i < 22 + 4) := by omega
      by_cases c3 : 42 ≤ i ∧ i < 46
      · have c3b : 42 ≤ i ∧ i < 42 + 4 := by omega
        simp [c1, c2, c3, c3b]
      · have c3b : ¬ (42 ≤ i ∧ i < 42 + 4) := by omega
        simp [c1, c2, c3, c1b, c2b, c3b]

theorem finalized_length (l : List Nat) (e1 e2 e3 : List Nat) (h1 : e1.length = 4)
    (h2 : e2.length = 4) (h3 : e3.length = 4) (hlen : 46 ≤ l.length) :
    (overwrite (overwrite (overwrite l 4 e1) 22 e2) 42 e3).length = l.length := by
  have l1 : (overwrite l 4 e1).length = l.length := overwrite_length _ _ _ (by omega)
  have l2 : (overwrite (overwrite l 4 e1) 22 e2).length = l.length := by
    rw [overwrite_length _ _ _ (by omega), l1]
  rw [overwrite_length _ _ _ (by omega), l2]

theorem mainWriteHeader_eq :
    mainWriteHeader { bytes := [], pos := 0 } =
      { bytes := [70, 79, 82, 77, 0, 0, 0, 0, 65, 73, 70, 70, 67, 79, 77, 77, 0, 0, 0, 18,
                  0, 1, 0, 0, 0, 0, 0, 32, 64, 14, 172, 68, 0, 0, 0, 0, 0, 0,
                  83, 83, 78, 68, 0, 0, 0, 0, 0, 0, 0, 0, 0, 0, 0, 0],
        pos := 54 } := by
  rfl

theorem finalized_fields (l : List Nat) (e1 e2 e3 : List Nat) (h1 : e1.length = 4)
    (h2 : e2.length = 4) (h3 : e3.length = 4) (hlen : 46 ≤ l.length) :
    Uint32 (((overwrite (overwrite (overwrite l 4 e1) 22 e2) 42 e3).drop 4).take 4) = Uint32 e1 ∧
    Uint32 (((overwrite (overwrite (overwrite l 4 e1) 22 e2) 42 e3).drop 22).take 4) = Uint32 e2 ∧
    Uint32 (((overwrite (overwrite (overwrite l 4 e1) 22 e2) 42 e3).drop 42).take 4) = Uint32 e3 := by
  refine ⟨Uint32_field _ _ _ ?_, Uint32_field _ _ _ ?_, Uint32_field _ _ _ ?_⟩
  · intro k hk
    rw [finalized_getElem? l e1 e2 e3 h1 h2 h3 hlen, if_pos (by omega)]
    congr 1; omega
  · intro k hk
    rw [finalized_getElem? l e1 e2 e3 h1 h2 h3 hlen, if_neg (by omega), if_pos (by omega)]
    congr 1; omega
  · intro k hk
    rw [finalized_getElem? l e1 e2 e3 h1 h2 h3 hlen, if_neg (by omega), if_neg (by omega),
      if_pos (by omega)]
    congr 1; omega

/-- C2. Finalize: for every valid total sample count `N` (`0 ≤ N`, `4*N + 46 < 2^31`) and
every output file holding at least the 46 bytes up to the last size field, the
finalization block succeeds; afterwards the big-endian 32-bit field at offset 4 is
`4 + 8 + 18 + 8 + 8 + 4*N`, the one at offset 22 is `N`, the one at offset 42 is
`4*N + 8`, the file has the same length and every byte outside the three fields is
unchanged. -/
theorem finalize_patches_three_fields (f : File) (N : Int) (hN : 0 ≤ N)
    (hmax : 4 * N + 46 < 2147483648) (hlen : 46 ≤ f.bytes.length) :
    ∃ f1, mainFinalize f N = Except.ok f1 ∧
      int32 (Uint32 ((f1.bytes.drop 4).take 4)) = 4 + 8 + 18 + 8 + 8 + 4 * N ∧
      int32 (Uint32 ((f1.bytes.drop 22).take 4)) = N ∧
      int32 (Uint32 ((f1.bytes.drop 42).take 4)) = 4 * N + 8 ∧
      f1.bytes.length = f.bytes.length ∧
      ∀ i, ¬ (4 ≤ i ∧ i < 8) → ¬ (22 ≤ i ∧ i < 26) → ¬ (42 ≤ i ∧ i < 46) →
        f1.bytes[i]? = f.bytes[i]? := by
  refine ⟨_, mainFinalize_eq f N hlen, ?_⟩
  obtain ⟨a, b, c⟩ := finalized_fields f.bytes (encodeInt32 (46 + 4 * N)) (encodeInt32 N)
    (encodeInt32 (4 * N + 8)) rfl rfl rfl hlen
  simp only []
  refine ⟨?_, ?_, ?_, ?_, ?_⟩
  · rw [a, int32_Uint32_encodeInt32 _ (by omega) (by omega)]; ring
  · rw [b, int32_Uint32_encodeInt32 _ (by omega) (by omega)]
  · rw [c, int32_Uint32_encodeInt32 _ (by omega) (by omega)]
  · exact finalized_length _ _ _ _ rfl rfl rfl hlen
  · intro i n1 n2 n3
    rw [finalized_getElem? f.bytes (encodeInt32 (46 + 4 * N)) (encodeInt32 N)
      (encodeInt32 (4 * N + 8)) rfl rfl rfl hlen, if_neg n1, if_neg n2, if_neg n3]

theorem finalize_patches_three_fields_witness :
    ∃ f1, mainFinalize (mainWriteHeader { bytes := [], pos := 0 }) 0 = Except.ok f1 ∧
      int32 (Uint32 ((f1.bytes.drop 4).take 4)) = 4 + 8 + 18 + 8 + 8 + 4 * 0 ∧
      int32 (Uint32 ((f1.bytes.drop 22).take 4)) = 0 ∧
      int32 (Uint32 ((f1.bytes.drop 42).take 4)) = 4 * 0 + 8 ∧
      f1.bytes.length = (mainWriteHeader { bytes := [], pos := 0 }).bytes.length ∧
      ∀ i, ¬ (4 ≤ i ∧ i < 8) → ¬ (22 ≤ i ∧ i < 26) → ¬ (42 ≤ i ∧ i < 46) →
        f1.bytes[i]? = (mainWriteHeader { bytes := [], pos := 0 }).bytes[i]? :=
  finalize_patches_three_fields (mainWriteHeader { bytes := [], pos := 0 }) 0 (by norm_num)
    (by norm_num) (by rw [mainWriteHeader_eq]; decide)

theorem processAudio_ok (g : Globals) (in_ out : List Int) (r : Globals × List Int)
    (h : processAudio g in_ out = Except.ok r) :
    r.1.outfile = g.outfile.Write (encodeInt32s in_) ∧ r.1.nSamples = g.nSamples + in_.length := by
  unfold processAudio at h
  simp only [] at h
  split at h
  · cases h
  · split at h
    · cases h; exact ⟨rfl, rfl⟩
    · cases h
    · cases h; exact ⟨rfl, rfl⟩

/-- C3. Header layout: on the freshly created output file the container writer emits
exactly the 54 bytes "FORM", int32 0, "AIFF", "COMM", int32 18, int16 1, int32 0,
int16 32, the ten sample-rate bytes, "SSND", int32 0, int32 0, int32 0 (given byte by
byte), and leaves the cursor at 54; the three size fields start at offsets 4, 22 and 42,
which are the fields the finalization block rewrites; the COMM payload is 18 bytes; a
first callback that returns leaves the file as these 54 bytes followed by the four
big-endian bytes of each captured sample, 54 + 4 * len(in) bytes in all, the first
captured sample at offsets 54 to 57. -/
theorem header_layout (g : Globals) (in_ out : List Int) (r : Globals × List Int)
    (hg : g.outfile = mainWriteHeader { bytes := [], pos := 0 })
    (hr : processAudio g in_ out = Except.ok r) :
    (mainWriteHeader { bytes := [], pos := 0 }).bytes =
        [70, 79, 82, 77, 0, 0, 0, 0, 65, 73, 70, 70, 67, 79, 77, 77, 0, 0, 0, 18,
         0, 1, 0, 0, 0, 0, 0, 32, 0x40, 0x0E, 0xAC, 0x44, 0, 0, 0, 0, 0, 0,
         83, 83, 78, 68, 0, 0, 0, 0, 0, 0, 0, 0, 0, 0, 0, 0] ∧
    (mainWriteHeader { bytes := [], pos := 0 }).bytes =
        FORM ++ encodeInt32 0 ++ AIFF ++ COMM ++ encodeInt32 18 ++ encodeInt16 1 ++
          encodeInt32 0 ++ encodeInt16 32 ++ [0x40, 0x0E, 0xAC, 0x44, 0, 0, 0, 0, 0, 0] ++
          SSND ++ encodeInt32 0 ++ encodeInt32 0 ++ encodeInt32 0 ∧
    (mainWriteHeader { bytes := [], pos := 0 }).bytes.length = 54 ∧
    (mainWriteHeader { bytes := [], pos := 0 }).pos = 54 ∧
    FORM.length = 4 ∧
    (FORM ++ encodeInt32 0 ++ AIFF ++ COMM ++ encodeInt32 18 ++ encodeInt16 1).length = 22 ∧
    (FORM ++ encodeInt32 0 ++ AIFF ++ COMM ++ encodeInt32 18 ++ encodeInt16 1 ++
          encodeInt32 0 ++ encodeInt16 32 ++ [0x40, 0x0E, 0xAC, 0x44, 0, 0, 0, 0, 0, 0] ++
          SSND).length = 42 ∧
    (encodeInt16 1 ++ encodeInt32 0 ++ encodeInt16 32 ++
          [0x40, 0x0E, 0xAC, 0x44, 0, 0, 0, 0, 0, 0]).length = 18 ∧
    (∀ N : Int, mainFinalize (mainWriteHeader { bytes := [], pos := 0 }) N = Except.ok
        { bytes := FORM ++ encodeInt32 (46 + 4 * N) ++ AIFF ++ COMM ++ encodeInt32 18 ++
            encodeInt16 1 ++ encodeInt32 N ++ encodeInt16 32 ++
            [0x40, 0x0E, 0xAC, 0x44, 0, 0, 0, 0, 0, 0] ++
            SSND ++ encodeInt32 (4 * N + 8) ++ encodeInt32 0 ++ encodeInt32 0,
          pos := 46 }) ∧
    r.1.outfile.bytes = (mainWriteHeader { bytes := [], pos := 0 }).bytes ++ encodeInt32s in_ ∧
    r.1.outfile.bytes.drop 54 = encodeInt32s in_ ∧
    r.1.outfile.bytes =
      [70, 79, 82, 77, 0, 0, 0, 0, 65, 73, 70, 70, 67, 79, 77, 77, 0, 0, 0, 18,
         0, 1, 0, 0, 0, 0, 0, 32, 0x40, 0x0E, 0xAC, 0x44, 0, 0, 0, 0, 0, 0,
         83, 83, 78, 68, 0, 0, 0, 0, 0, 0, 0, 0, 0, 0, 0, 0] ++
        in_.flatMap (fun v : Int =>
          [(v % 4294967296).toNat / 16777216 % 256, (v % 4294967296).toNat / 65536 % 256,
           (v % 4294967296).toNat / 256 % 256, (v % 4294967296).toNat % 256]) ∧
    r.1.outfile.bytes.length = 54 + 4 * in_.length ∧
    (∀ v rest, in_ = v :: rest →
      (r.1.outfile.bytes.drop 54).take 4 =
        [(v % 4294967296).toNat / 16777216 % 256, (v % 4294967296).toNat / 65536 % 256,
         (v % 4294967296).toNat / 256 % 256, (v % 4294967296).toNat % 256]) := by
  have hw : r.1.outfile.bytes =
      (mainWriteHeader { bytes := [], pos := 0 }).bytes ++ encodeInt32s in_ := by
    rw [(processAudio_ok g in_ out r hr).1, hg, mainWriteHeader_eq,
      File.Write_eq _ _ (by simp)]
    simp [overwrite]
  have hd : r.1.outfile.bytes.drop 54 = encodeInt32s in_ := by
    rw [hw, mainWriteHeader_eq]
    simp
  refine ⟨rfl, rfl, rfl, rfl, rfl, rfl, rfl, rfl, ?_, hw, hd, ?_, ?_, ?_⟩
  · intro N
    rw [mainFinalize_eq _ _ (by rw [mainWriteHeader_eq]; simp), mainWriteHeader_eq]
    simp [overwrite, encodeInt32, PutUint32, encodeInt16, PutUint16, FORM, AIFF, COMM, SSND,
      uint32, uint16]
  · rw [hw, encodeInt32s_bytes]
    rfl
  · rw [hw, List.length_append, encodeInt32s_length]
    rfl
  · intro v rest hv
    rw [hd, hv, encodeInt32s_bytes, List.flatMap_cons]
    rfl

theorem header_layout_witness :
    (processAudio
        { outfile := mainWriteHeader { bytes := [], pos := 0 }, nSamples := 0, audio := none,
          remaining := 0 } [1, -2] [0, 0]).map
      (fun r => r.1.outfile.bytes) =
      Except.ok
        ([70, 79, 82, 77, 0, 0, 0, 0, 65, 73, 70, 70, 67, 79, 77, 77, 0, 0, 0, 18,
          0, 1, 0, 0, 0, 0, 0, 32, 0x40, 0x0E, 0xAC, 0x44, 0, 0, 0, 0, 0, 0,
          83, 83, 78, 68, 0, 0, 0, 0, 0, 0, 0, 0, 0, 0, 0, 0] ++
          [0, 0, 0, 1, 255, 255, 255, 254]) := by
  have h : processAudio
      { outfile := mainWriteHeader { bytes := [], pos := 0 }, nSamples := 0, audio := none,
        remaining := 0 } [1, -2] [0, 0] =
      Except.ok ({ outfile := File.Write (mainWriteHeader { bytes := [], pos := 0 })
                     (encodeInt32s [1, -2]),
                   nSamples := 2, audio := none, remaining := 0 }, [0, 0]) := by
    rfl
  rw [h]
  exact congrArg Except.ok (header_layout _ [1, -2] [0, 0] _ rfl h).2.2.2.2.2.2.2.2.2.2.2.1

/-- C5 (as the code has it). Scenario, finalize numbers: finalizing an output file (of
at least the 46 bytes up to the last size field) with a running sample count of 192
stores 192 at offset 22, 776 at offset 42 and 814 at offset 4. -/
theorem finalize_192_samples (f : File) (hlen : 46 ≤ f.bytes.length) :
    ∃ f1, mainFinalize f 192 = Except.ok f1 ∧
      int32 (Uint32 ((f1.bytes.drop 22).take 4)) = 192 ∧
      int32 (Uint32 ((f1.bytes.drop 42).take 4)) = 776 ∧
      int32 (Uint32 ((f1.bytes.drop 4).take 4)) = 814 := by
  refine ⟨_, mainFinalize_eq f 192 hlen, ?_⟩
  obtain ⟨a, b, c⟩ := finalized_fields f.bytes (encodeInt32 (46 + 4 * 192)) (encodeInt32 192)
    (encodeInt32 (4 * 192 + 8)) rfl rfl rfl hlen
  simp only []
  refine ⟨?_, ?_, ?_⟩
  · rw [b, int32_Uint32_encodeInt32 _ (by norm_num) (by norm_num)]
  · rw [c, int32_Uint32_encodeInt32 _ (by norm_num) (by norm_num)]; norm_num
  · rw [a, int32_Uint32_encodeInt32 _ (by norm_num) (by norm_num)]; norm_num

set_option maxRecDepth 100000 in
theorem finalize_192_samples_witness :
    ∃ f1, mainFinalize scenarioOutput 192 = Except.ok f1 ∧
      int32 (Uint32 ((f1.bytes.drop 22).take 4)) = 192 ∧
      int32 (Uint32 ((f1.bytes.drop 42).take 4)) = 776 ∧
      int32 (Uint32 ((f1.bytes.drop 4).take 4)) = 814 :=
  finalize_192_samples scenarioOutput (by decide)

set_option maxRecDepth 100000 in
/-- C5 as stated fails: after finalizing the header followed by 192 captured samples
the field at offset 4 is 814, not 822. -/
theorem finalize_192_outer_length_not_822 :
    ∃ f1, mainFinalize scenarioOutput 192 = Except.ok f1 ∧
      int32 (Uint32 ((f1.bytes.drop 4).take 4)) = 814 ∧
      int32 (Uint32 ((f1.bytes.drop 4).take 4)) ≠ 822 ∧
      Uint32 ((f1.bytes.drop 4).take 4) ≠ 822 := by
  refine ⟨_, mainFinalize_eq scenarioOutput 192 (by decide), ?_⟩
  obtain ⟨a, -, -⟩ := finalized_fields scenarioOutput.bytes (encodeInt32 (46 + 4 * 192))
    (encodeInt32 192) (encodeInt32 (4 * 192 + 8)) rfl rfl rfl (by decide)
  simp only []
  rw [a]
  decide

theorem ReaderAt.ReadAt_spec (r : ReaderAt) (hwf : r.WF) (n : Nat) (hn : 0 < n) (off : Int)
    (hoff : 0 ≤ off) :
    r.ReadAt n off = ((r.view.drop off.toNat).take n,
      if ((r.view.drop off.toNat).take n).length < n then some Error.EOF else none) := by
  induction r generalizing n off with
  | file b =>
    simp only [ReaderAt.ReadAt, File.ReadAt, ReaderAt.view]
    rw [if_neg (by omega)]
  | sect r base limit ih =>
    obtain ⟨hb, hr⟩ := hwf
    simp only [ReaderAt.ReadAt, ReaderAt.view]
    by_cases h1 : off < 0 ∨ off ≥ limit - base
    · rw [if_pos h1]
      have : List.drop off.toNat (List.take (limit - base).toNat (List.drop base.toNat r.view)) = [] := by
        apply List.drop_eq_nil_of_le
        simp only [List.length_take, List.length_drop]
        omega
      simp only [this]
      simp [hn]
    · rw [if_neg h1]
      have e1 : List.drop off.toNat (List.take (limit - base).toNat (List.drop base.toNat r.view))
          = List.take (limit - (off + base)).toNat (List.drop (off + base).toNat r.view) := by
        rw [List.drop_take, List.drop_drop]
        congr 2 <;> omega
      simp only [e1]
      by_cases h2 : (n : Int) > limit - (off + base)
      · rw [if_pos h2, ih hr _ (by omega) _ (by omega)]
        have e2 : List.take n (List.take (limit - (off + base)).toNat
            (List.drop (off + base).toNat r.view)) =
            List.take (limit - (off + base)).toNat (List.drop (off + base).toNat r.view) := by
          rw [List.take_take]
          congr 1; omega
        simp only [e2]
        have : (List.take (limit - (off + base)).toNat
            (List.drop (off + base).toNat r.view)).length < n := by
          simp only [List.length_take]; omega
        rw [if_pos this]
        split <;> simp
      · rw [if_neg h2, ih hr _ hn _ (by omega)]
        have e2 : List.take n (List.take (limit - (off + base)).toNat
            (List.drop (off + base).toNat r.view)) =
            List.take n (List.drop (off + base).toNat r.view) := by
          rw [List.take_take]
          congr 1; omega
        simp only [e2]

theorem section_Read_spec (s : SectionReader) (hwf : s.r.WF) (h0 : 0 ≤ s.off)
    (n : Nat) (hn : 0 < n) :
    s.Read n = (s.avail.take n,
      if s.off ≥ s.limit ∨
          ((s.avail.take n).length < n ∧ ((s.avail.take n).length : Int) < s.limit - s.off)
        then some Error.EOF else none,
      { s with off := s.off + (s.avail.take n).length }) := by
  unfold SectionReader.Read SectionReader.avail
  by_cases h1 : s.off ≥ s.limit
  · have : (s.limit - s.off).toNat = 0 := by omega
    simp [h1, this]
  · rw [if_neg h1]
    simp only []
    by_cases h2 : (n : Int) > s.limit - s.off
    · rw [if_pos h2, ReaderAt.ReadAt_spec _ hwf _ (by omega) _ h0]
      have e2 : List.take n (List.take (s.limit - s.off).toNat (List.drop s.off.toNat s.r.view)) =
          List.take (s.limit - s.off).toNat (List.drop s.off.toNat s.r.view) := by
        rw [List.take_take]; congr 1; omega
      simp only [e2, h1, false_or]
      congr 2
      simp only [List.length_take, List.length_drop]
      split <;> split <;> first | rfl | omega
    · rw [if_neg h2, ReaderAt.ReadAt_spec _ hwf _ hn _ h0]
      have e2 : List.take n (List.take (s.limit - s.off).toNat (List.drop s.off.toNat s.r.view)) =
          List.take n (List.drop s.off.toNat s.r.view) := by
        rw [List.take_take]; congr 1; omega
      simp only [e2, h1, false_or]
      congr 2
      simp only [List.length_take, List.length_drop]
      split <;> split <;> first | rfl | omega

theorem SectionReader.avail_length_le (s : SectionReader) :
    s.avail.length ≤ (s.limit - s.off).toNat := by
  unfold SectionReader.avail
  simp only [List.length_take, List.length_drop]
  omega

theorem section_avail_advance (s : SectionReader) (h0 : 0 ≤ s.off) (k : Nat) :
    SectionReader.avail { s with off := s.off + k } = s.avail.drop k := by
  unfold SectionReader.avail
  simp only []
  rw [List.drop_take, List.drop_drop]
  congr 2 <;> omega

theorem instRead_section (s : SectionReader) (n : Nat) :
    readerAtSeeker.Read s n = SectionReader.Read s n := rfl

theorem instRead_file (f : File) (n : Nat) : readerAtSeeker.Read f n = File.Read f n := rfl

theorem section_ReadFull_spec (s : SectionReader) (hwf : s.r.WF) (h0 : 0 ≤ s.off)
    (n : Nat) (hn : 0 < n) :
    ReadFull s n = (s.avail.take n,
      if n ≤ s.avail.length then none
      else if s.avail.length = 0 then some Error.EOF else some Error.ErrUnexpectedEOF,
      { s with off := s.off + (s.avail.take n).length }) := by
  obtain ⟨m, rfl⟩ : ∃ m, n = m + 1 := ⟨n - 1, by omega⟩
  have hle := s.avail_length_le
  unfold ReadFull
  rw [ReadAtLeastLoop]
  simp only [List.length_nil, Nat.le_zero_eq, Nat.add_one_ne_zero, if_false, Nat.sub_zero,
    List.nil_append, instRead_section]
  rw [section_Read_spec s hwf h0 _ hn]
  simp only []
  by_cases c3 : m + 1 ≤ s.avail.length
  · have e : (s.avail.take (m + 1)).length = m + 1 := List.length_take_of_le c3
    have c1 : ¬ (s.off ≥ s.limit ∨ ((s.avail.take (m + 1)).length < m + 1 ∧
        ((s.avail.take (m + 1)).length : Int) < s.limit - s.off)) := by
      rw [e]; omega
    rw [if_neg c1]
    simp only []
    rw [ReadAtLeastLoop]
    simp only [e, le_refl, if_true, c3]
  · have e : s.avail.take (m + 1) = s.avail := List.take_of_length_le (by omega)
    simp only [e, if_neg c3]
    by_cases c1 : s.off ≥ s.limit ∨ (s.avail.length < m + 1 ∧
        (s.avail.length : Int) < s.limit - s.off)
    · rw [if_pos c1]
      simp only []
      by_cases c2 : s.avail.length = 0
      · simp [c2]
      · have c4 : 0 < s.avail.length := by omega
        simp [c2, c4]
    · rw [if_neg c1]
      simp only []
      rw [ReadAtLeastLoop]
      have hlim : s.off + s.avail.length = s.limit := by omega
      have hpos : 0 < s.avail.length := by omega
      rw [if_neg c3]
      simp only [instRead_section]
      rw [section_Read_spec { s with off := s.off + s.avail.length } hwf
        (by simp only []; omega) _ (by omega)]
      rw [section_avail_advance s h0]
      simp only [List.drop_length, List.take_nil, List.length_nil, List.append_nil]
      have c5 : s.off + (s.avail.length : Int) ≥ s.limit ∨ (0 < m + 1 - s.avail.length ∧
          ((0 : Nat) : Int) < s.limit - (s.off + s.avail.length)) := Or.inl (by omega)
      rw [if_pos c5]
      simp only []
      have c4 : (0 < s.avail.length ∧ Error.EOF = Error.EOF) := ⟨by omega, rfl⟩
      have c2 : ¬ s.avail.length = 0 := by omega
      simp only [if_neg c3, if_neg c2]
      simp [hpos]

theorem file_Read_spec (f : File) (n : Nat) (hn : 0 < n) :
    f.Read n = (f.avail.take n, if f.avail.length = 0 then some Error.EOF else none,
      { f with pos := f.pos + (f.avail.take n).length }) := by
  unfold File.Read File.avail
  rw [if_neg (by omega)]
  simp only []
  by_cases h : (List.drop f.pos f.bytes).length = 0
  · have e : List.drop f.pos f.bytes = [] := List.length_eq_zero.mp h
    simp [e]
  · have : ¬ (List.take n (List.drop f.pos f.bytes)).length = 0 := by
      rw [List.length_take]; omega
    rw [if_neg this, if_neg h]

theorem file_avail_advance (f : File) (k : Nat) :
    File.avail { f with pos := f.pos + k } = f.avail.drop k := by
  unfold File.avail
  simp only []
  rw [List.drop_drop, Nat.add_comm]

theorem file_ReadFull_spec (f : File) (n : Nat) (hn : 0 < n) :
    ReadFull f n = (f.avail.take n,
      if n ≤ f.avail.length then none
      else if f.avail.length = 0 then some Error.EOF else some Error.ErrUnexpectedEOF,
      { f with pos := f.pos + (f.avail.take n).length }) := by
  obtain ⟨m, rfl⟩ : ∃ m, n = m + 1 := ⟨n - 1, by omega⟩
  unfold ReadFull
  rw [ReadAtLeastLoop]
  simp only [List.length_nil, Nat.le_zero_eq, Nat.add_one_ne_zero, if_false, Nat.sub_zero,
    List.nil_append, instRead_file]
  rw [file_Read_spec f _ hn]
  simp only []
  by_cases c3 : m + 1 ≤ f.avail.length
  · have e : (f.avail.take (m + 1)).length = m + 1 := List.length_take_of_le c3
    rw [if_neg (by omega)]
    simp only []
    rw [ReadAtLeastLoop]
    simp only [e, le_refl, if_true, c3]
  · have e : f.avail.take (m + 1) = f.avail := List.take_of_length_le (by omega)
    simp only [e, if_neg c3]
    by_cases c2 : f.avail.length = 0
    · simp [c2]
    · rw [if_neg c2]
      simp only []
      rw [ReadAtLeastLoop]
      rw [if_neg c3]
      simp only [instRead_file]
      rw [file_Read_spec { f with pos := f.pos + f.avail.length } _ (by omega)]
      rw [file_avail_advance f]
      have hpos : 0 < f.avail.length := by omega
      simp only [List.drop_length, List.take_nil, List.length_nil, List.append_nil, if_true]
      simp only [if_neg c3, if_neg c2]
      simp [hpos]

theorem instSeek_file (f : File) (o : Int) (w : Nat) :
    readerAtSeeker.Seek f o w = File.Seek f o w := rfl

theorem instSeek_section (s : SectionReader) (o : Int) (w : Nat) :
    readerAtSeeker.Seek s o w = SectionReader.Seek s o w := rfl

theorem instAsReaderAt_file (f : File) :
    readerAtSeeker.asReaderAt f = ReaderAt.file f.bytes := rfl

theorem instAsReaderAt_section (s : SectionReader) :
    readerAtSeeker.asReaderAt s = ReaderAt.sect s.r s.base s.limit := rfl

theorem ID.fill_zero_of_length (b : List Nat) (h : 4 ≤ b.length) :
    ID.fill ID.zero (b.take 4) = b.take 4 := by
  unfold ID.fill ID.zero
  have : (b.take 4).length = 4 := List.length_take_of_le h
  rw [this]
  simp

theorem NewSectionReader_of_fits (r : ReaderAt) (off n : Int) (hn : 0 ≤ n) (ho : 0 ≤ off)
    (h : off + n ≤ 9223372036854775807) :
    NewSectionReader r off n = { r := r, base := off, off := off, limit := off + n } := by
  unfold NewSectionReader int64
  simp only []
  have c : off ≤ (9223372036854775807 - n + 9223372036854775808) % 18446744073709551616 -
      9223372036854775808 := by omega
  rw [if_pos c]
  have e : (n + off + 9223372036854775808) % 18446744073709551616 - 9223372036854775808 =
      off + n := by omega
  rw [e]

theorem NewSectionReader_of_neg (r : ReaderAt) (off n : Int) (hn : n < 0)
    (hn2 : -9223372036854775808 ≤ n) (ho : 0 ≤ off) :
    NewSectionReader r off n =
      { r := r, base := off, off := off, limit := 9223372036854775807 } := by
  unfold NewSectionReader int64
  simp only []
  have c : ¬ off ≤ (9223372036854775807 - n + 9223372036854775808) % 18446744073709551616 -
      9223372036854775808 := by omega
  rw [if_neg c]

theorem NewSectionReader_base (r : ReaderAt) (off n : Int) :
    (NewSectionReader r off n).base = off ∧ (NewSectionReader r off n).off = off ∧
      (NewSectionReader r off n).r = r := ⟨rfl, rfl, rfl⟩

theorem readChunk_file_ok (f : File) (h : 8 ≤ f.avail.length) :
    readChunk f =
      { id := f.avail.take 4,
        data := some (NewSectionReader (ReaderAt.file f.bytes) (f.pos + 8)
          (int32 (Uint32 ((f.avail.drop 4).take 4)))),
        err := if (f.pos : Int) + 8 + int32 (Uint32 ((f.avail.drop 4).take 4)) < 0
          then some Error.errOffset else none,
        r := if (f.pos : Int) + 8 + int32 (Uint32 ((f.avail.drop 4).take 4)) < 0
          then { f with pos := f.pos + 8 }
          else { f with pos := ((f.pos : Int) + 8 + int32 (Uint32 ((f.avail.drop 4).take 4))).toNat } } := by
  have e4 : (f.avail.take 4).length = 4 := List.length_take_of_le (by omega)
  have a4 : File.avail { f with pos := f.pos + 4 } = f.avail.drop 4 := file_avail_advance f 4
  have e8 : ((f.avail.drop 4).take 4).length = 4 :=
    List.length_take_of_le (by rw [List.length_drop]; omega)
  unfold readChunk
  simp only [instRead_file, instSeek_file, instAsReaderAt_file]
  rw [file_Read_spec f 4 (by omega)]
  simp only [e4]
  rw [if_neg (by omega)]
  simp only []
  rw [file_ReadFull_spec _ 4 (by omega), a4]
  simp only [e8, List.length_drop]
  rw [if_pos (by omega)]
  simp only []
  rw [ID.fill_zero_of_length _ (by omega)]
  generalize int32 (Uint32 ((f.avail.drop 4).take 4)) = n
  simp only [File.Seek]
  have p0 : ¬ ((((f.pos + 4 + 4 : Nat) : Int) + 0) < 0) := by omega
  simp only [if_neg p0]
  have t8 : ((((f.pos + 4 + 4 : Nat) : Int) + 0)).toNat = f.pos + 8 := by omega
  simp only [t8]
  have x : (((f.pos + 4 + 4 : Nat) : Int) + 0) = (f.pos : Int) + 8 := by omega
  have y : (((f.pos + 8 : Nat) : Int)) = (f.pos : Int) + 8 := by omega
  by_cases c : (f.pos : Int) + 8 + n < 0
  · have c2 : (((f.pos + 8 : Nat) : Int) + n) < 0 := by omega
    simp only [if_pos c, if_pos c2, x, y, add_zero]
  · have c2 : ¬ (((f.pos + 8 : Nat) : Int) + n) < 0 := by omega
    simp only [if_neg c, if_neg c2, x, y, add_zero]

theorem readChunk_section_ok (s : SectionReader) (hwf : s.r.WF) (hb : 0 ≤ s.base)
    (h0 : s.base ≤ s.off) (h : 8 ≤ s.avail.length) :
    readChunk s =
      { id := s.avail.take 4,
        data := some (NewSectionReader (ReaderAt.sect s.r s.base s.limit) (s.off + 8 - s.base)
          (int32 (Uint32 ((s.avail.drop 4).take 4)))),
        err := if s.off + 8 + int32 (Uint32 ((s.avail.drop 4).take 4)) < s.base
          then some Error.errOffset else none,
        r := if s.off + 8 + int32 (Uint32 ((s.avail.drop 4).take 4)) < s.base
          then { s with off := s.off + 8 }
          else { s with off := s.off + 8 + int32 (Uint32 ((s.avail.drop 4).take 4)) } } := by
  have hle := s.avail_length_le
  have e4 : (s.avail.take 4).length = 4 := List.length_take_of_le (by omega)
  have a4 : SectionReader.avail { s with off := s.off + ((4 : Nat) : Int) } = s.avail.drop 4 :=
    section_avail_advance s (by omega) 4
  have e8 : ((s.avail.drop 4).take 4).length = 4 :=
    List.length_take_of_le (by rw [List.length_drop]; omega)
  unfold readChunk
  simp only [instRead_section, instSeek_section, instAsReaderAt_section]
  rw [section_Read_spec s hwf (by omega) 4 (by omega)]
  simp only [e4]
  rw [if_neg (by omega)]
  simp only []
  rw [section_ReadFull_spec { s with off := s.off + ((4 : Nat) : Int) } hwf
    (by simp only []; omega) 4 (by omega), a4]
  simp only [e8, List.length_drop]
  rw [if_pos (by omega)]
  simp only []
  rw [ID.fill_zero_of_length _ (by omega)]
  generalize int32 (Uint32 ((s.avail.drop 4).take 4)) = n
  simp only [SectionReader.Seek]
  have p0 : ¬ ((0 + (s.off + ((4 : Nat) : Int) + ((4 : Nat) : Int))) < s.base) := by omega
  simp only [if_neg p0]
  have x : 0 + (s.off + ((4 : Nat) : Int) + ((4 : Nat) : Int)) = s.off + 8 := by omega
  simp only [x]
  by_cases c : s.off + 8 + n < s.base
  · have c2 : n + (s.off + 8) < s.base := by omega
    simp only [if_pos c, if_pos c2]
  · have c2 : ¬ n + (s.off + 8) < s.base := by omega
    have y : n + (s.off + 8) = s.off + 8 + n := by omega
    simp only [if_neg c, if_neg c2, y]

theorem readChunk_file_short (f : File) (h : f.avail.length < 8) :
    (readChunk f).err =
        some (if f.avail.length ≤ 4 then Error.EOF else Error.ErrUnexpectedEOF) ∧
      (readChunk f).data = none := by
  unfold readChunk
  simp only [instRead_file]
  rw [file_Read_spec f 4 (by omega)]
  by_cases c0 : f.avail.length = 0
  · simp [c0]
  · rw [if_neg c0]
    simp only []
    rw [file_ReadFull_spec _ 4 (by omega), file_avail_advance f]
    have hl : (List.drop (List.take 4 f.avail).length f.avail).length = f.avail.length - 4 := by
      rw [List.length_drop, List.length_take]; omega
    simp only [hl]
    rw [if_neg (by omega)]
    by_cases c1 : f.avail.length ≤ 4
    · rw [if_pos (by omega), if_pos c1]
      exact ⟨rfl, rfl⟩
    · rw [if_neg (by omega), if_neg c1]
      exact ⟨rfl, rfl⟩

theorem readChunk_section_short (s : SectionReader) (hwf : s.r.WF) (h0 : 0 ≤ s.off)
    (h : s.avail.length < 8) :
    (readChunk s).err =
        some (if s.avail.length ≤ 4 then Error.EOF else Error.ErrUnexpectedEOF) ∧
      (readChunk s).data = none := by
  have hle := s.avail_length_le
  unfold readChunk
  simp only [instRead_section]
  rw [section_Read_spec s hwf h0 4 (by omega)]
  by_cases c0 : s.off ≥ s.limit ∨ ((s.avail.take 4).length < 4 ∧
      ((s.avail.take 4).length : Int) < s.limit - s.off)
  · rw [if_pos c0]
    have : s.avail.length ≤ 4 := by
      have := List.length_take 4 s.avail
      omega
    simp [this]
  · rw [if_neg c0]
    simp only []
    rw [section_ReadFull_spec { s with off := s.off + (s.avail.take 4).length } hwf
      (by simp only []; omega) 4 (by omega), section_avail_advance s h0]
    have hl : (List.drop (List.take 4 s.avail).length s.avail).length = s.avail.length - 4 := by
      rw [List.length_drop, List.length_take]; omega
    simp only [hl]
    rw [if_neg (by omega)]
    by_cases c1 : s.avail.length ≤ 4
    · rw [if_pos (by omega), if_pos c1]
      exact ⟨rfl, rfl⟩
    · rw [if_neg (by omega), if_neg c1]
      exact ⟨rfl, rfl⟩

theorem ReadFull_zero {ρ : Type} [readerAtSeeker ρ] (r : ρ) : ReadFull r 0 = ([], none, r) := by
  simp [ReadFull, ReadAtLeastLoop]

theorem SectionReader.ReadFull_fst (s : SectionReader) (hwf : s.r.WF) (h0 : 0 ≤ s.off)
    (n : Nat) : (ReadFull s n).1 = s.avail.take n := by
  rcases Nat.eq_zero_or_pos n with rfl | hn
  · simp [ReadFull_zero]
  · rw [section_ReadFull_spec s hwf h0 n hn]

theorem SectionReader.ReadFull_all (s : SectionReader) (hwf : s.r.WF) (h0 : 0 ≤ s.off)
    (n : Nat) (hn : n ≤ s.avail.length) :
    ReadFull s n = (s.avail.take n, none, { s with off := s.off + n }) := by
  rcases Nat.eq_zero_or_pos n with rfl | hp
  · simp [ReadFull_zero]
  · rw [section_ReadFull_spec s hwf h0 n hp, if_pos hn, List.length_take_of_le hn]

theorem SectionReader.ReadFull_exhausted (s : SectionReader) (hwf : s.r.WF) (h0 : 0 ≤ s.off)
    (he : s.avail = []) (n : Nat) (hn : 0 < n) :
    ReadFull s n = ([], some Error.EOF, s) := by
  rw [section_ReadFull_spec s hwf h0 n hn, he]
  simp
  omega

theorem avail_newSection_file (bytes : List Nat) (p : Nat) (L : Nat)
    (hfit : (p : Int) + L ≤ 9223372036854775807) :
    (NewSectionReader (ReaderAt.file bytes) (p : Int) (L : Int)).avail =
      (bytes.drop p).take L := by
  rw [NewSectionReader_of_fits _ _ _ (by omega) (by omega) hfit]
  unfold SectionReader.avail
  simp only [ReaderAt.view]
  congr 1
  omega

theorem avail_newSection_section (s : SectionReader) (hb : 0 ≤ s.base) (h0 : s.base ≤ s.off)
    (k : Nat) (L : Nat) (hfit : s.off + k - s.base + L ≤ 9223372036854775807) :
    (NewSectionReader (ReaderAt.sect s.r s.base s.limit) (s.off + k - s.base) (L : Int)).avail =
      (s.avail.drop k).take L := by
  rw [NewSectionReader_of_fits _ _ _ (by omega) (by omega) hfit]
  unfold SectionReader.avail
  simp only [ReaderAt.view]
  rw [List.drop_take, List.drop_drop, List.drop_take, List.drop_drop, List.take_take,
    List.take_take]
  congr 1
  · omega
  · congr 1
    omega

theorem chunk_bytes_take (tag len rest : List Nat) (htag : tag.length = 4) :
    (tag ++ len ++ rest).take 4 = tag := by
  rw [List.append_assoc, List.take_left' htag]

theorem chunk_bytes_len (tag len rest : List Nat) (htag : tag.length = 4)
    (hlen : len.length = 4) : ((tag ++ len ++ rest).drop 4).take 4 = len := by
  rw [List.append_assoc, List.drop_left' htag, List.take_left' hlen]

theorem chunk_bytes_drop (tag len rest : List Nat) (htag : tag.length = 4)
    (hlen : len.length = 4) (k : Nat) : (tag ++ len ++ rest).drop (8 + k) = rest.drop k := by
  rw [← List.drop_drop, List.drop_left' (by simp [htag, hlen])]

theorem ReaderAt.ReadAt_fst (r : ReaderAt) (hwf : r.WF) (n : Nat) (hn : 0 < n) (off : Int)
    (hoff : 0 ≤ off) : (r.ReadAt n off).1 = (r.view.drop off.toNat).take n := by
  rw [ReaderAt.ReadAt_spec r hwf n hn off hoff]

theorem readsExactly_of_avail (d : SectionReader) (payload : List Nat) (hwf : d.r.WF)
    (hoff : 0 ≤ d.off) (ha : d.avail = payload) : ReadsExactly d payload := by
  have hall := SectionReader.ReadFull_all d hwf hoff payload.length (by rw [ha])
  rw [ha] at hall
  refine ⟨?_, ?_, ?_, ?_⟩
  · intro n
    rw [SectionReader.ReadFull_fst d hwf hoff, ha]
  · rw [hall]; simp
  · rw [hall]
  · intro n hn
    rw [hall]
    simp only []
    apply SectionReader.ReadFull_exhausted { d with off := d.off + payload.length } hwf
      (by simp only []; omega) _ n hn
    rw [section_avail_advance d hoff, ha]
    simp

theorem readAt_newSection (r : ReaderAt) (hwf : r.WF) (off : Int) (h0 : 0 ≤ off) (L : Int)
    (payload : List Nat)
    (ha : SectionReader.avail { r := r, base := off, off := off, limit := off + L } = payload)
    (n : Nat) (hn : 0 < n) (o : Int) (ho : 0 ≤ o) :
    ((ReaderAt.sect r off (off + L)).ReadAt n o).1 = (payload.drop o.toNat).take n := by
  rw [ReaderAt.ReadAt_fst (ReaderAt.sect r off (off + L)) ⟨h0, hwf⟩ n hn o ho, ← ha]
  unfold SectionReader.avail
  simp only [ReaderAt.view]

/-- C7. `readChunk` framing, for a file source `f` and for a section source `s` (the
nested call on the FORM payload) whose bytes from the cursor on are `tag ++ len ++ rest`
with a 4-byte tag, a 4-byte length field of value `L ≥ 0` and at least `L` further
bytes (the file size and the limit of `s` being `int64` values, as they are in Go): the
call returns `tag`, no error, and a view based right behind the header with
limit `L` bytes further (offsets relative to the source); sequential reads and `ReadAt`
on the view yield exactly the first `L` bytes of `rest` (`L` bytes) and nothing beyond; the source
cursor ends exactly `8 + L` further, on the first byte of `rest.drop L`, whatever the
parity of `L`. -/
theorem readChunk_framing (f : File) (s : SectionReader) (tag len rest : List Nat) (L : Nat)
    (htag : tag.length = 4) (hlen : len.length = 4) (hL : int32 (Uint32 len) = (L : Int))
    (hrest : L ≤ rest.length)
    (hf : f.bytes.drop f.pos = tag ++ len ++ rest)
    (hsize : (f.bytes.length : Int) ≤ 9223372036854775807)
    (hwf : s.r.WF) (hb : 0 ≤ s.base) (h0 : s.base ≤ s.off)
    (hs : s.avail = tag ++ len ++ rest)
    (hlim : s.limit ≤ 9223372036854775807) :
    (readChunk f =
        { id := tag,
          data := some { r := ReaderAt.file f.bytes, base := f.pos + 8, off := f.pos + 8,
                         limit := f.pos + 8 + L },
          err := none,
          r := { f with pos := f.pos + 8 + L } } ∧
      ReadsExactly { r := ReaderAt.file f.bytes, base := f.pos + 8, off := f.pos + 8,
                     limit := f.pos + 8 + L } (rest.take L) ∧
      (∀ n (o : Int), 0 < n → 0 ≤ o →
        ((ReaderAt.sect (ReaderAt.file f.bytes) (f.pos + 8) (f.pos + 8 + L)).ReadAt n o).1 =
          ((rest.take L).drop o.toNat).take n) ∧
      f.bytes.drop (f.pos + 8 + L) = rest.drop L) ∧
    (rest.take L).length = L ∧
    (readChunk s =
        { id := tag,
          data := some { r := ReaderAt.sect s.r s.base s.limit, base := s.off + 8 - s.base,
                         off := s.off + 8 - s.base, limit := s.off + 8 - s.base + L },
          err := none,
          r := { s with off := s.off + 8 + L } } ∧
      ReadsExactly { r := ReaderAt.sect s.r s.base s.limit, base := s.off + 8 - s.base,
                     off := s.off + 8 - s.base, limit := s.off + 8 - s.base + L }
        (rest.take L) ∧
      (∀ n (o : Int), 0 < n → 0 ≤ o →
        ((ReaderAt.sect (ReaderAt.sect s.r s.base s.limit) (s.off + 8 - s.base)
            (s.off + 8 - s.base + L)).ReadAt n o).1 =
          ((rest.take L).drop o.toNat).take n) ∧
      SectionReader.avail { s with off := s.off + 8 + L } = rest.drop L) := by
  have hfa : f.avail = tag ++ len ++ rest := hf
  have hfl : f.pos + 8 + L ≤ f.bytes.length := by
    have := congrArg List.length hf
    simp only [List.length_drop, List.length_append, htag, hlen] at this
    omega
  have hsl : s.off + 8 + L ≤ s.limit := by
    have h1 := s.avail_length_le
    have h2 := congrArg List.length hs
    simp only [List.length_append, htag, hlen] at h2
    omega
  have fitf : ((f.pos : Int) + 8) + (L : Int) ≤ 9223372036854775807 := by omega
  have fits : (s.off + 8 - s.base) + (L : Int) ≤ 9223372036854775807 := by omega
  have nf := NewSectionReader_of_fits (ReaderAt.file f.bytes) ((f.pos : Int) + 8) L (by omega)
    (by omega) fitf
  have ns := NewSectionReader_of_fits (ReaderAt.sect s.r s.base s.limit) (s.off + 8 - s.base) L
    (by omega) (by omega) fits
  have af : (NewSectionReader (ReaderAt.file f.bytes) (f.pos + 8) L).avail = rest.take L := by
    have h1 := avail_newSection_file f.bytes (f.pos + 8) L (by push_cast; omega)
    have h2 : List.drop (f.pos + 8) f.bytes = rest := by
      rw [← List.drop_drop, hf]
      exact chunk_bytes_drop tag len rest htag hlen 0
    rw [h2] at h1
    rw [← h1]
    congr 1
  have as : (NewSectionReader (ReaderAt.sect s.r s.base s.limit) (s.off + 8 - s.base) L).avail
      = rest.take L := by
    have := avail_newSection_section s hb h0 8 L (by push_cast; omega)
    rw [hs, chunk_bytes_drop tag len rest htag hlen 0] at this
    simpa using this
  rw [nf] at af
  rw [ns] at as
  refine ⟨⟨?_, ?_, ?_, ?_⟩, List.length_take_of_le hrest, ⟨?_, ?_, ?_, ?_⟩⟩
  · rw [readChunk_file_ok f (by rw [hfa]; simp [htag, hlen]; omega), hfa,
      chunk_bytes_take tag len rest htag, chunk_bytes_len tag len rest htag hlen, hL]
    rw [if_neg (by omega), if_neg (by omega), nf]
    have : ((f.pos : Int) + 8 + L).toNat = f.pos + 8 + L := by omega
    rw [this]
  · exact readsExactly_of_avail _ _ trivial (by simp only []; omega) af
  · intro n o hn ho
    exact readAt_newSection (ReaderAt.file f.bytes) trivial (f.pos + 8) (by omega) L _ af n hn
      o ho
  · rw [Nat.add_assoc, ← List.drop_drop, hf, chunk_bytes_drop tag len rest htag hlen]
  · rw [readChunk_section_ok s hwf hb h0 (by rw [hs]; simp [htag, hlen]; omega), hs,
      chunk_bytes_take tag len rest htag, chunk_bytes_len tag len rest htag hlen, hL]
    rw [if_neg (by omega), if_neg (by omega), ns]
  · exact readsExactly_of_avail _ _ ⟨hb, hwf⟩ (by simp only []; omega) as
  · intro n o hn ho
    exact readAt_newSection (ReaderAt.sect s.r s.base s.limit) ⟨hb, hwf⟩ (s.off + 8 - s.base)
      (by omega) L _ as n hn o ho
  · have := section_avail_advance s (by omega) (8 + L)
    rw [hs, chunk_bytes_drop tag len rest htag hlen] at this
    rw [← this]
    have e : s.off + 8 + (L : Int) = s.off + ((8 + L : Nat) : Int) := by omega
    rw [e]

theorem readChunk_framing_witness :
    readChunk framingFile =
        { id := [78, 65, 77, 69],
          data := some { r := ReaderAt.file framingFile.bytes, base := 8, off := 8, limit := 11 },
          err := none,
          r := { bytes := framingFile.bytes, pos := 11 } } ∧
      readChunk framingSection =
        { id := [78, 65, 77, 69],
          data := some { r := ReaderAt.sect framingSection.r 8 27, base := 12, off := 12,
                         limit := 15 },
          err := none,
          r := { framingSection with off := 23 } } :=
  have h := readChunk_framing framingFile framingSection [78, 65, 77, 69] [0, 0, 0, 3]
    [1, 2, 3, 83, 83, 78, 68] 3 rfl rfl (by decide) (by decide) rfl (by decide) trivial
    (by decide) (by decide) (by decide) (by decide)
  ⟨h.1.1, h.2.2.1⟩

theorem encodeInt32s_append (l1 l2 : List Int) :
    encodeInt32s (l1 ++ l2) = encodeInt32s l1 ++ encodeInt32s l2 := by
  induction l1 with
  | nil => rfl
  | cons v vs ih =>
    rw [List.cons_append]
    simp only [encodeInt32s]
    rw [ih, List.append_assoc]

theorem File.Write_append (f : File) (b : List Nat) (h : f.pos = f.bytes.length) :
    f.Write b = { bytes := f.bytes ++ b, pos := f.bytes.length + b.length } := by
  rw [File.Write_eq f b (by omega), h]
  simp [overwrite]

theorem decodeInt32s_length (n : Nat) (b : List Nat) : (decodeInt32s n b).length = n := by
  induction n generalizing b with
  | zero => rfl
  | succ k ih => simp only [decodeInt32s, List.length_cons, ih]

theorem binaryReadInt32s_ok (a : SectionReader) (hwf : a.r.WF) (h0 : 0 ≤ a.off) (n : Nat)
    (hn : 4 * n ≤ a.avail.length) :
    binaryReadInt32s (some a) n =
      Except.ok (decodeInt32s n (a.avail.take (4 * n)),
        some { a with off := a.off + ((4 * n : Nat) : Int) }) := by
  unfold binaryReadInt32s
  by_cases c : n = 0
  · subst c
    simp [decodeInt32s]
  · rw [if_neg c]
    simp only []
    rw [SectionReader.ReadFull_all a hwf h0 _ hn]

/-- One callback while the source still holds the samples `remaining` promises. -/
theorem processAudio_step (g : Globals) (a : SectionReader) (in_ out : List Int)
    (ha : g.audio = some a) (hwf : a.r.WF) (h0 : 0 ≤ a.off) (hr : 0 ≤ g.remaining)
    (hav : 4 * g.remaining.toNat ≤ a.avail.length) :
    processAudio g in_ out =
      Except.ok
        ({ outfile := g.outfile.Write (encodeInt32s in_),
           nSamples := g.nSamples + in_.length,
           audio := some { a with off := a.off + ((4 * min out.length g.remaining.toNat : Nat) : Int) },
           remaining := g.remaining - ((min out.length g.remaining.toNat : Nat) : Int) },
         decodeInt32s (min out.length g.remaining.toNat)
             (a.avail.take (4 * min out.length g.remaining.toNat))
           ++ out.drop (min out.length g.remaining.toNat)) := by
  unfold processAudio
  simp only []
  rw [if_neg (by omega)]
  have hn : (if (out.length : Int) > g.remaining then g.remaining.toNat else out.length) =
      min out.length g.remaining.toNat := by
    split <;> omega
  rw [hn, ha, binaryReadInt32s_ok a hwf h0 _ (by omega)]

theorem captured_length (calls : List (List Int × List Int)) :
    (captured calls).length = (calls.map (fun c => c.1.length)).sum := by
  induction calls with
  | nil => rfl
  | cons c rest ih => simp only [captured, List.length_append, ih, List.map_cons, List.sum_cons]

theorem slots_eq_sum (calls : List (List Int × List Int)) :
    slots calls = (calls.map (fun c => c.2.length)).sum := by
  induction calls with
  | nil => rfl
  | cons c rest ih => simp only [slots, ih, List.map_cons, List.sum_cons]

theorem runCallbacks_spec (calls : List (List Int × List Int)) :
    ∀ (g : Globals) (a : SectionReader), g.audio = some a → a.r.WF → 0 ≤ a.off →
      0 ≤ g.remaining → 4 * g.remaining.toNat ≤ a.avail.length →
      g.outfile.pos = g.outfile.bytes.length →
      runCallbacks g calls = Except.ok
        { outfile := { bytes := g.outfile.bytes ++ encodeInt32s (captured calls),
                       pos := g.outfile.bytes.length + 4 * (captured calls).length },
          nSamples := g.nSamples + (captured calls).length,
          audio := some { a with off := a.off + ((4 * min (slots calls) g.remaining.toNat : Nat) : Int) },
          remaining := g.remaining - ((min (slots calls) g.remaining.toNat : Nat) : Int) } := by
  induction calls with
  | nil =>
    intro g a ha _ _ _ _ hp
    simp only [runCallbacks, captured, slots, encodeInt32s, List.append_nil, List.length_nil,
      Nat.zero_min, Nat.mul_zero, Nat.add_zero, Nat.cast_zero, add_zero, sub_zero, ← hp, ← ha]
  | cons c rest ih =>
    intro g a ha hwf h0 hr hav hp
    obtain ⟨in_, out⟩ := c
    simp only [runCallbacks]
    rw [processAudio_step g a in_ out ha hwf h0 hr hav]
    simp only []
    rw [ih _ { a with off := a.off + ((4 * min out.length g.remaining.toNat : Nat) : Int) } rfl hwf
      (by simp only []; omega) (by simp only []; omega)
      (by
        simp only []
        rw [section_avail_advance a h0, List.length_drop]
        omega)
      (by rw [File.Write_append _ _ hp]; simp [encodeInt32s_length])]
    rw [File.Write_append _ _ hp]
    simp only [captured, slots, encodeInt32s_append, List.append_assoc, List.length_append,
      encodeInt32s_length]
    congr 2
    · congr 1
      omega
    · push_cast
      omega
    · congr 2
      omega
    · omega

theorem scenarioAudio_avail_length : scenarioAudio.avail.length = 4 * 128 := by
  simp only [SectionReader.avail, scenarioAudio, ReaderAt.view, List.length_take,
    List.length_drop, List.length_replicate]
  decide

/-- C4. Duplex totals: starting from `nSamples = 0` and `remaining = M` over a source
that holds exactly `M` samples, with the output cursor at the end of the output file,
any sequence of callbacks runs without panic; afterwards `nSamples` is the sum of the
capture block lengths, the output file is the former one followed by the four
big-endian bytes of each captured sample in order, so it has grown by four bytes for
each of the sum-of-capture-lengths samples, and the number of samples consumed from the
source, `M - remaining`, is `min M (sum of the playback slot lengths)`, the source
cursor having moved by four times that. -/
theorem duplex_totals (g : Globals) (a : SectionReader) (calls : List (List Int × List Int))
    (M : Nat) (hn : g.nSamples = 0) (hr : g.remaining = M) (ha : g.audio = some a)
    (hwf : a.r.WF) (h0 : 0 ≤ a.off) (hM : a.avail.length = 4 * M)
    (hp : g.outfile.pos = g.outfile.bytes.length) :
    ∃ g1 a1, runCallbacks g calls = Except.ok g1 ∧ g1.audio = some a1 ∧
      g1.nSamples = ((calls.map (fun c => c.1.length)).sum : Nat) ∧
      g1.outfile.bytes = g.outfile.bytes ++ encodeInt32s (captured calls) ∧
      (captured calls).length = (calls.map (fun c => c.1.length)).sum ∧
      (M : Int) - g1.remaining = (min M (calls.map (fun c => c.2.length)).sum : Nat) ∧
      a1.off - a.off = 4 * (min M (calls.map (fun c => c.2.length)).sum : Nat) ∧
      a1.avail.length = 4 * (M - min M (calls.map (fun c => c.2.length)).sum) ∧
      g1.outfile.bytes = g.outfile.bytes ++
        (captured calls).flatMap (fun v : Int =>
          [(v % 4294967296).toNat / 16777216 % 256, (v % 4294967296).toNat / 65536 % 256,
           (v % 4294967296).toNat / 256 % 256, (v % 4294967296).toNat % 256]) ∧
      g1.outfile.bytes.length =
        g.outfile.bytes.length + 4 * (calls.map (fun c => c.1.length)).sum ∧
      g1.outfile.pos = g1.outfile.bytes.length := by
  have hR : g.remaining.toNat = M := by omega
  refine ⟨_, _, runCallbacks_spec calls g a ha hwf h0 (by omega) (by omega) hp, rfl, ?_, rfl,
    captured_length calls, ?_, ?_, ?_, ?_, ?_, ?_⟩
  · simp only [hn, captured_length]
    omega
  · simp only [hR, hr, slots_eq_sum]
    omega
  · simp only [hR, slots_eq_sum]
    omega
  · rw [section_avail_advance a h0, List.length_drop, hM, hR, slots_eq_sum]
    omega
  · simp only []
    rw [encodeInt32s_bytes]
  · simp only []
    rw [List.length_append, encodeInt32s_length, captured_length]
  · simp only []
    rw [List.length_append, encodeInt32s_length]

theorem duplex_totals_witness :
    ∃ g1 a1, runCallbacks scenarioStart
        [([1, 2], List.replicate 100 0), ([-3], List.replicate 100 0)] = Except.ok g1 ∧
      g1.audio = some a1 ∧ g1.nSamples = 3 ∧
      g1.outfile.bytes =
        [70, 79, 82, 77, 0, 0, 0, 0, 65, 73, 70, 70, 67, 79, 77, 77, 0, 0, 0, 18,
         0, 1, 0, 0, 0, 0, 0, 32, 0x40, 0x0E, 0xAC, 0x44, 0, 0, 0, 0, 0, 0,
         83, 83, 78, 68, 0, 0, 0, 0, 0, 0, 0, 0, 0, 0, 0, 0] ++
          [0, 0, 0, 1, 0, 0, 0, 2, 255, 255, 255, 253] ∧
      g1.outfile.bytes.length = 54 + 4 * 3 ∧
      (128 : Int) - g1.remaining = 128 ∧ a1.off - scenarioAudio.off = 4 * 128 ∧
      a1.avail.length = 0 := by
  obtain ⟨g1, a1, h1, h2, h3, _, _, h6, h7, h8, h9, h10, _⟩ :=
    duplex_totals scenarioStart scenarioAudio
      [([1, 2], List.replicate 100 0), ([-3], List.replicate 100 0)] 128 rfl rfl rfl
      ⟨by decide, trivial⟩ (by decide) scenarioAudio_avail_length
      (by simp only [scenarioStart, mainWriteHeader_eq]; rfl)
  exact ⟨g1, a1, h1, h2, h3.trans (by simp), h9.trans (by rfl), h10.trans (by rfl),
    h6.trans (by simp), h7.trans (by simp), h8.trans (by simp)⟩

theorem processAudio_exhausted (g : Globals) (in_ out : List Int) (h : g.remaining = 0) :
    processAudio g in_ out =
      Except.ok ({ outfile := g.outfile.Write (encodeInt32s in_),
                   nSamples := g.nSamples + in_.length,
                   audio := g.audio, remaining := 0 }, out) := by
  unfold processAudio
  simp only [h]
  rw [if_neg (by omega)]
  have hn : (if (out.length : Int) > 0 then (0 : Int).toNat else out.length) = 0 := by
    split
    · rfl
    · omega
  rw [hn]
  simp [binaryReadInt32s]

/-- C6. Playback exhaustion: with `remaining = 0` and the output cursor at the end of
the output file, a call to `processAudio` with any capture block and any playback slot
does not panic, appends the four big-endian bytes of every captured sample to the output
file (which grows by `4 * len(in)` bytes), adds `len(in)` to `nSamples`, and leaves the
source, `out` and `remaining = 0` as they were.  Scenario: from `remaining = 128` over a
source holding at least 128 samples, with 64-sample buffers, `remaining` is 64 after
the first callback and 0 after the second, and the third callback appends its 64
captured samples and plays back nothing. -/
theorem playback_exhaustion (g : Globals) (in_ out : List Int) (h : g.remaining = 0)
    (hp : g.outfile.pos = g.outfile.bytes.length)
    (g0 : Globals) (a : SectionReader) (i1 i2 i3 o1 o2 o3 : List Int)
    (hseed : g0.remaining = 128) (ha : g0.audio = some a) (hwf : a.r.WF) (h0 : 0 ≤ a.off)
    (hav : 4 * 128 ≤ a.avail.length)
    (hp0 : g0.outfile.pos = g0.outfile.bytes.length)
    (ho1 : o1.length = 64) (ho2 : o2.length = 64) (hi3 : i3.length = 64) :
    (∃ g1, processAudio g in_ out = Except.ok (g1, out) ∧
        g1.outfile = g.outfile.Write (encodeInt32s in_) ∧
        g1.outfile.bytes = g.outfile.bytes ++
          in_.flatMap (fun v : Int =>
          [(v % 4294967296).toNat / 16777216 % 256, (v % 4294967296).toNat / 65536 % 256,
           (v % 4294967296).toNat / 256 % 256, (v % 4294967296).toNat % 256]) ∧
        g1.outfile.bytes.length = g.outfile.bytes.length + 4 * in_.length ∧
        g1.outfile.pos = g1.outfile.bytes.length ∧
        g1.nSamples = g.nSamples + in_.length ∧ g1.audio = g.audio ∧ g1.remaining = 0) ∧
      ∃ g1 p1 g2 p2 g3, processAudio g0 i1 o1 = Except.ok (g1, p1) ∧ g1.remaining = 64 ∧
        processAudio g1 i2 o2 = Except.ok (g2, p2) ∧ g2.remaining = 0 ∧
        processAudio g2 i3 o3 = Except.ok (g3, o3) ∧
        g3.outfile = g2.outfile.Write (encodeInt32s i3) ∧
        g3.outfile.bytes = g2.outfile.bytes ++
          i3.flatMap (fun v : Int =>
          [(v % 4294967296).toNat / 16777216 % 256, (v % 4294967296).toNat / 65536 % 256,
           (v % 4294967296).toNat / 256 % 256, (v % 4294967296).toNat % 256]) ∧
        g3.outfile.bytes.length = g2.outfile.bytes.length + 4 * 64 ∧
        g3.nSamples = g2.nSamples + 64 ∧ g3.audio = g2.audio ∧ g3.remaining = 0 := by
  have wr : ∀ (f : File) (l : List Int), f.pos = f.bytes.length →
      (f.Write (encodeInt32s l)).bytes = f.bytes ++
        l.flatMap (fun v : Int =>
          [(v % 4294967296).toNat / 16777216 % 256, (v % 4294967296).toNat / 65536 % 256,
           (v % 4294967296).toNat / 256 % 256, (v % 4294967296).toNat % 256]) ∧
      (f.Write (encodeInt32s l)).bytes.length = f.bytes.length + 4 * l.length ∧
      (f.Write (encodeInt32s l)).pos = (f.Write (encodeInt32s l)).bytes.length := by
    intro f l hf
    rw [File.Write_append f _ hf]
    simp only []
    rw [List.length_append, encodeInt32s_length, ← encodeInt32s_bytes]
    exact ⟨rfl, rfl, rfl⟩
  refine ⟨⟨_, processAudio_exhausted g in_ out h, rfl, (wr _ _ hp).1, (wr _ _ hp).2.1,
    (wr _ _ hp).2.2, rfl, rfl, rfl⟩, ?_⟩
  have s1 := processAudio_step g0 a i1 o1 ha hwf h0 (by omega) (by omega)
  have m1 : min o1.length g0.remaining.toNat = 64 := by omega
  rw [m1] at s1
  have s2 := processAudio_step
    { outfile := g0.outfile.Write (encodeInt32s i1), nSamples := g0.nSamples + i1.length,
      audio := some { a with off := a.off + ((4 * 64 : Nat) : Int) },
      remaining := g0.remaining - ((64 : Nat) : Int) : Globals }
    { a with off := a.off + ((4 * 64 : Nat) : Int) } i2 o2 rfl hwf
    (by simp only []; omega) (by simp only []; omega)
    (by
      simp only []
      rw [section_avail_advance a h0, List.length_drop]
      omega)
  have m2 : min o2.length (g0.remaining - ((64 : Nat) : Int)).toNat = 64 := by omega
  simp only [m2] at s2
  have s3 := processAudio_exhausted
    { outfile := (g0.outfile.Write (encodeInt32s i1)).Write (encodeInt32s i2),
      nSamples := g0.nSamples + i1.length + i2.length,
      audio := some { r := a.r, base := a.base,
                      off := a.off + ((4 * 64 : Nat) : Int) + ((4 * 64 : Nat) : Int),
                      limit := a.limit },
      remaining := g0.remaining - ((64 : Nat) : Int) - ((64 : Nat) : Int) : Globals }
    i3 o3 (by simp only [hseed]; norm_num)
  have hp2 : ((g0.outfile.Write (encodeInt32s i1)).Write (encodeInt32s i2)).pos =
      ((g0.outfile.Write (encodeInt32s i1)).Write (encodeInt32s i2)).bytes.length :=
    (wr _ i2 (wr _ i1 hp0).2.2).2.2
  refine ⟨_, _, _, _, _, s1, ?_, s2, ?_, s3, rfl, (wr _ i3 hp2).1, ?_, ?_, rfl, rfl⟩
  · simp only [hseed]; norm_num
  · simp only [hseed]; norm_num
  · rw [(wr _ i3 hp2).2.1, hi3]
  · simp only [hi3]; norm_num

set_option maxRecDepth 100000 in
theorem playback_exhaustion_witness :
    (∃ g1, processAudio { scenarioStart with remaining := 0 } [5, -6, 7] [9, 9] =
          Except.ok (g1, [9, 9]) ∧
        g1.outfile.bytes =
          [70, 79, 82, 77, 0, 0, 0, 0, 65, 73, 70, 70, 67, 79, 77, 77, 0, 0, 0, 18,
         0, 1, 0, 0, 0, 0, 0, 32, 0x40, 0x0E, 0xAC, 0x44, 0, 0, 0, 0, 0, 0,
         83, 83, 78, 68, 0, 0, 0, 0, 0, 0, 0, 0, 0, 0, 0, 0] ++
            [0, 0, 0, 5, 255, 255, 255, 250, 0, 0, 0, 7] ∧
        g1.outfile.bytes.length = 54 + 4 * 3 ∧
        g1.nSamples = 3 ∧ g1.audio = some scenarioAudio ∧ g1.remaining = 0) ∧
      ∃ g1 p1 g2 p2 g3,
        processAudio scenarioStart (List.replicate 64 1) (List.replicate 64 0) =
          Except.ok (g1, p1) ∧ g1.remaining = 64 ∧
        processAudio g1 (List.replicate 64 2) (List.replicate 64 0) = Except.ok (g2, p2) ∧
        g2.remaining = 0 ∧
        processAudio g2 (List.replicate 64 3) (List.replicate 64 7) =
          Except.ok (g3, List.replicate 64 7) ∧
        g3.outfile.bytes.length = g2.outfile.bytes.length + 4 * 64 ∧
        g3.nSamples = g2.nSamples + 64 ∧ g3.audio = g2.audio ∧ g3.remaining = 0 := by
  have hs : scenarioStart.outfile.pos = scenarioStart.outfile.bytes.length := by
    simp only [scenarioStart, mainWriteHeader_eq]
    rfl
  obtain ⟨⟨g1, e1, _, e3, e4, _, e6, e7, e8⟩, g1b, p1, g2, p2, g3, t1, t2, t3, t4, t5, _, _,
      t8, t9, t10, t11⟩ :=
    playback_exhaustion { scenarioStart with remaining := 0 } [5, -6, 7] [9, 9] rfl hs
      scenarioStart scenarioAudio (List.replicate 64 1) (List.replicate 64 2)
      (List.replicate 64 3) (List.replicate 64 0) (List.replicate 64 0) (List.replicate 64 7)
      rfl rfl ⟨by decide, trivial⟩ (by decide)
      (Nat.le_of_eq scenarioAudio_avail_length.symm) hs
      (List.length_replicate _ _) (List.length_replicate _ _) (List.length_replicate _ _)
  exact ⟨⟨g1, e1, e3.trans (by rfl), e4.trans (by rfl), e6.trans (by rfl), e7, e8⟩,
    g1b, p1, g2, p2, g3, t1, t2, t3, t4, t5, t8, t9, t10, t11⟩

theorem int32_Uint32_PutUint32 (n : Nat) (h : n < 2147483648) :
    int32 (Uint32 (PutUint32 n)) = (n : Int) := by
  simp only [int32, Uint32, PutUint32, List.getD_cons_zero, List.getD_cons_succ]
  omega

theorem PutUint32_length (n : Nat) : (PutUint32 n).length = 4 := rfl

theorem scanLoop_chunks (chs : List Chunk) :
    ∀ (fuel : Nat) (data : SectionReader) (c : commonChunk) (au : Option SectionReader)
      (ab : Option (List Nat)),
      chs.length < fuel → data.r.WF → 0 ≤ data.base → data.base ≤ data.off →
      data.limit ≤ 9223372036854775807 →
      data.avail = chunksBytes chs → (∀ ch ∈ chs, ch.WF) → AudioHolds au ab →
      ∃ au1, scanLoop fuel data c au = some (Outcome.parsed (expectedC c chs) au1) ∧
        AudioHolds au1 (expectedAudio ab chs) := by
  induction chs with
  | nil =>
    intro fuel data c au ab hf hwf hb h0 _ ha _ hau
    obtain ⟨k, rfl⟩ : ∃ k, fuel = k + 1 := ⟨fuel - 1, by simp at hf; omega⟩
    have hs := readChunk_section_short data hwf (by omega) (by rw [ha]; simp [chunksBytes])
    rw [ha] at hs
    simp only [chunksBytes, List.length_nil, Nat.zero_le, if_true] at hs
    refine ⟨au, ?_, hau⟩
    rw [scanLoop]
    simp only [hs.1, expectedC]
  | cons ch rest ih =>
    intro fuel data c au ab hf hwf hb h0 hlim ha hall hau
    obtain ⟨k, rfl⟩ : ∃ k, fuel = k + 1 := ⟨fuel - 1, by simp at hf; omega⟩
    obtain ⟨ht, hl, hc⟩ := hall ch (List.mem_cons_self _ _)
    have ha2 : data.avail = ch.tag ++ PutUint32 ch.payload.length ++
        (ch.payload ++ chunksBytes rest) := by
      rw [ha]
      simp only [chunksBytes, Chunk.bytes, List.append_assoc]
    have hok := readChunk_section_ok data hwf hb h0
      (by rw [ha2]; simp [ht, PutUint32_length]; omega)
    rw [ha2, chunk_bytes_take _ _ _ ht, chunk_bytes_len _ _ _ ht (PutUint32_length _),
      int32_Uint32_PutUint32 _ hl] at hok
    have cnd : ¬ (data.off + 8 + (ch.payload.length : Int) < data.base) := by omega
    rw [if_neg cnd, if_neg cnd] at hok
    have hfit : data.off + 8 - data.base + (ch.payload.length : Int) ≤ 9223372036854775807 := by
      have h1 := data.avail_length_le
      have h2 := congrArg List.length ha2
      simp only [List.length_append, ht, PutUint32_length] at h2
      omega
    have nsr := NewSectionReader_of_fits (ReaderAt.sect data.r data.base data.limit)
      (data.off + 8 - data.base) (ch.payload.length : Int) (by omega) (by omega) hfit
    have hav : (NewSectionReader (ReaderAt.sect data.r data.base data.limit)
        (data.off + 8 - data.base) (ch.payload.length : Int)).avail = ch.payload := by
      have := avail_newSection_section data hb h0 8 ch.payload.length (by push_cast; omega)
      rw [ha2, chunk_bytes_drop _ _ _ ht (PutUint32_length _) 0] at this
      simpa using this
    have hnext : SectionReader.avail { data with off := data.off + 8 + ch.payload.length } =
        chunksBytes rest := by
      have := section_avail_advance data (by omega) (8 + ch.payload.length)
      rw [ha2, chunk_bytes_drop _ _ _ ht (PutUint32_length _)] at this
      have e : data.off + 8 + (ch.payload.length : Int) =
          data.off + ((8 + ch.payload.length : Nat) : Int) := by omega
      rw [e, this]
      simp
    have hrest : ∀ x ∈ rest, x.WF := fun x hx => hall x (List.mem_cons_of_mem _ hx)
    rw [scanLoop]
    simp only [hok]
    by_cases t1 : ch.tag = COMM
    · rw [if_pos t1]
      rw [SectionReader.ReadFull_all (NewSectionReader (ReaderAt.sect data.r data.base data.limit)
          (data.off + 8 - data.base) (ch.payload.length : Int)) ⟨hb, hwf⟩
        (by rw [nsr]; simp only []; omega) 18 (by rw [hav]; exact hc t1), hav]
      simp only []
      obtain ⟨au1, h1, h2⟩ := ih k { data with off := data.off + 8 + ch.payload.length }
        (commonChunk.decode (ch.payload.take 18)) au ab (by simp at hf; omega) hwf hb
        (by simp only []; omega) hlim hnext hrest hau
      refine ⟨au1, ?_, ?_⟩
      · rw [h1]; simp only [expectedC, if_pos t1]
      · simpa only [expectedAudio, if_pos t1] using h2
    · rw [if_neg t1]
      by_cases t2 : ch.tag = SSND
      · rw [if_pos t2]
        have hsk : (SectionReader.Seek (NewSectionReader
            (ReaderAt.sect data.r data.base data.limit) (data.off + 8 - data.base)
            (ch.payload.length : Int)) 8 1).2.2 =
            { (NewSectionReader (ReaderAt.sect data.r data.base data.limit)
                (data.off + 8 - data.base) (ch.payload.length : Int)) with
              off := (data.off + 8 - data.base) + ((8 : Nat) : Int) } := by
          rw [nsr]
          simp only [SectionReader.Seek]
          rw [if_neg (by omega)]
          simp only []
          congr 1
          omega
        rw [hsk]
        obtain ⟨au1, h1, h2⟩ := ih k { data with off := data.off + 8 + ch.payload.length } c
          (some { (NewSectionReader (ReaderAt.sect data.r data.base data.limit)
                (data.off + 8 - data.base) (ch.payload.length : Int)) with
              off := (data.off + 8 - data.base) + ((8 : Nat) : Int) })
          (some (ch.payload.drop 8)) (by simp at hf; omega) hwf hb
          (by simp only []; omega) hlim hnext hrest
          ⟨⟨hb, hwf⟩, by simp only []; omega, by
            have := section_avail_advance (NewSectionReader
              (ReaderAt.sect data.r data.base data.limit) (data.off + 8 - data.base)
              (ch.payload.length : Int)) (by rw [nsr]; simp only []; omega) 8
            rw [hav] at this
            exact this⟩
        refine ⟨au1, ?_, ?_⟩
        · rw [h1]; simp only [expectedC, if_neg t1]
        · simpa only [expectedAudio, if_neg t1, if_pos t2] using h2
      · rw [if_neg t2]
        obtain ⟨au1, h1, h2⟩ := ih k { data with off := data.off + 8 + ch.payload.length } c
          au ab (by simp at hf; omega) hwf hb (by simp only []; omega) hlim hnext hrest hau
        refine ⟨au1, ?_, ?_⟩
        · rw [h1]; simp only [expectedC, if_neg t1]
        · simpa only [expectedAudio, if_neg t1, if_neg t2] using h2

theorem mainRead_file (chs : List Chunk) (fuel : Nat) (f : File) (hbytes : f.bytes = container chs)
    (hpos : f.pos = 0) (hf : chs.length < fuel)
    (hall : ∀ ch ∈ chs, ch.WF) (hT : 4 + (chunksBytes chs).length < 2147483648) :
    ∃ au, mainRead fuel f =
        some (Outcome.parsed (expectedC commonChunk.zero chs) au) ∧
      AudioHolds au (expectedAudio none chs) := by
  have fl4 : FORM.length = 4 := rfl
  have hfa : f.avail =
      FORM ++ PutUint32 (4 + (chunksBytes chs).length) ++ (AIFF ++ chunksBytes chs) := by
    simp only [File.avail, hbytes, hpos, container, List.drop_zero, List.append_assoc]
  have hok := readChunk_file_ok f (by rw [hfa]; simp [FORM, AIFF, PutUint32_length])
  rw [hfa, chunk_bytes_take FORM _ _ fl4, chunk_bytes_len FORM _ _ fl4 (PutUint32_length _),
    int32_Uint32_PutUint32 _ hT] at hok
  have cnd : ¬ ((f.pos : Int) + 8 + ((4 + (chunksBytes chs).length : Nat) : Int) < 0) := by
    omega
  rw [if_neg cnd, if_neg cnd] at hok
  have nsr := NewSectionReader_of_fits (ReaderAt.file f.bytes) ((f.pos : Int) + 8)
    ((4 + (chunksBytes chs).length : Nat) : Int) (by omega) (by omega) (by omega)
  have hav : (NewSectionReader (ReaderAt.file f.bytes) ((f.pos : Int) + 8)
      ((4 + (chunksBytes chs).length : Nat) : Int)).avail = AIFF ++ chunksBytes chs := by
    have h1 := avail_newSection_file f.bytes 8 (4 + (chunksBytes chs).length)
      (by push_cast; omega)
    have h2 : List.drop 8 f.bytes = AIFF ++ chunksBytes chs := by
      have := chunk_bytes_drop FORM (PutUint32 (4 + (chunksBytes chs).length))
        (AIFF ++ chunksBytes chs) fl4 (PutUint32_length _) 0
      rw [← hfa] at this
      simpa [File.avail, hpos] using this
    have l4 : (AIFF ++ chunksBytes chs).length ≤ 4 + (chunksBytes chs).length := by
      rw [List.length_append]
      exact Nat.le_of_eq rfl
    rw [h2, List.take_of_length_le l4] at h1
    rw [← h1, hpos]
    congr 1
  have hdr : (NewSectionReader (ReaderAt.file f.bytes) ((f.pos : Int) + 8)
      ((4 + (chunksBytes chs).length : Nat) : Int)).r.WF := trivial
  have hdb : 0 ≤ (NewSectionReader (ReaderAt.file f.bytes) ((f.pos : Int) + 8)
      ((4 + (chunksBytes chs).length : Nat) : Int)).base := by
    rw [nsr]; simp only []; omega
  have hdo : (NewSectionReader (ReaderAt.file f.bytes) ((f.pos : Int) + 8)
      ((4 + (chunksBytes chs).length : Nat) : Int)).base ≤
      (NewSectionReader (ReaderAt.file f.bytes) ((f.pos : Int) + 8)
      ((4 + (chunksBytes chs).length : Nat) : Int)).off := by
    rw [nsr]
  have hdl : (NewSectionReader (ReaderAt.file f.bytes) ((f.pos : Int) + 8)
      ((4 + (chunksBytes chs).length : Nat) : Int)).off + 4 ≤
      (NewSectionReader (ReaderAt.file f.bytes) ((f.pos : Int) + 8)
      ((4 + (chunksBytes chs).length : Nat) : Int)).limit := by
    rw [nsr]; simp only []; omega
  have hdm : (NewSectionReader (ReaderAt.file f.bytes) ((f.pos : Int) + 8)
      ((4 + (chunksBytes chs).length : Nat) : Int)).limit ≤ 9223372036854775807 := by
    rw [nsr]; simp only []; omega
  clear nsr
  generalize NewSectionReader (ReaderAt.file f.bytes) ((f.pos : Int) + 8)
      ((4 + (chunksBytes chs).length : Nat) : Int) = d at hok hav hdr hdb hdo hdl hdm
  have hrd := section_Read_spec d hdr (by omega) 4 (by omega)
  have t4 : (AIFF ++ chunksBytes chs).take 4 = AIFF := List.take_left' rfl
  have e4 : AIFF.length = 4 := rfl
  rw [hav, t4, e4] at hrd
  rw [if_neg (by omega)] at hrd
  have hnext : SectionReader.avail { d with off := d.off + ((4 : Nat) : Int) } =
      chunksBytes chs := by
    rw [section_avail_advance d (by omega) 4, hav]
    exact List.drop_left' rfl
  obtain ⟨au, h1, h2⟩ := scanLoop_chunks chs fuel { d with off := d.off + ((4 : Nat) : Int) }
    commonChunk.zero none none hf hdr hdb (by simp only []; omega) hdm hnext hall trivial
  refine ⟨au, ?_, h2⟩
  rw [← h1]
  delta mainRead
  rw [hok]
  simp only []
  rw [hrd]
  have fl : ID.fill FORM AIFF = AIFF := rfl
  have n1 : ¬ (FORM ≠ FORM) := fun h => h rfl
  have n2 : ¬ (AIFF ≠ AIFF) := fun h => h rfl
  simp only [fl, if_neg n1, if_neg n2]

theorem mainRead_container (chs : List Chunk) (fuel : Nat) (hf : chs.length < fuel)
    (hall : ∀ ch ∈ chs, ch.WF) (hT : 4 + (chunksBytes chs).length < 2147483648) :
    ∃ au, mainRead fuel { bytes := container chs, pos := 0 } =
        some (Outcome.parsed (expectedC commonChunk.zero chs) au) ∧
      AudioHolds au (expectedAudio none chs) :=
  mainRead_file chs fuel { bytes := container chs, pos := 0 } rfl rfl hf hall hT

theorem section_ReadFull_any (s : SectionReader) (hwf : s.r.WF) (h0 : 0 ≤ s.off) (n : Nat) :
    (ReadFull s n).1 = s.avail.take n ∧
      (ReadFull s n).2.1 = (if n ≤ s.avail.length then none
        else if s.avail.length = 0 then some Error.EOF else some Error.ErrUnexpectedEOF) ∧
      (ReadFull s n).2.2 = { s with off := s.off + (s.avail.take n).length } := by
  rcases Nat.eq_zero_or_pos n with rfl | hn
  · simp [ReadFull_zero]
  · rw [section_ReadFull_spec s hwf h0 n hn]
    exact ⟨rfl, rfl, rfl⟩

theorem readSeq_congr (ns : List Nat) :
    ∀ (x y : SectionReader), x.r.WF → y.r.WF → 0 ≤ x.off → 0 ≤ y.off → x.avail = y.avail →
      readSeq x ns = readSeq y ns := by
  induction ns with
  | nil => intros; rfl
  | cons n ns ih =>
    intro x y hx hy h0x h0y he
    obtain ⟨x1, x2, x3⟩ := section_ReadFull_any x hx h0x n
    obtain ⟨y1, y2, y3⟩ := section_ReadFull_any y hy h0y n
    simp only [readSeq]
    rw [x1, x2, x3, y1, y2, y3, he]
    congr 1
    apply ih { x with off := x.off + ((y.avail.take n).length : Int) }
      { y with off := y.off + ((y.avail.take n).length : Int) } hx hy
      (by simp only []; omega) (by simp only []; omega)
    rw [section_avail_advance x h0x, section_avail_advance y h0y, he]

theorem sameReads_of_audioHolds (a1 a2 : Option SectionReader) (ab : Option (List Nat))
    (h1 : AudioHolds a1 ab) (h2 : AudioHolds a2 ab) : SameReads a1 a2 := by
  cases a1 <;> cases a2 <;> cases ab <;> simp only [AudioHolds] at h1 h2 <;>
    simp only [SameReads]
  intro ns
  exact readSeq_congr ns _ _ h1.1 h2.1 h1.2.1 h2.2.1 (h1.2.2.trans h2.2.2.symm)

theorem expectedC_filter (chs : List Chunk) :
    ∀ c, expectedC c chs = expectedC c (chs.filter (fun ch => ch.tag = COMM)) := by
  induction chs with
  | nil => intro c; rfl
  | cons ch rest ih =>
    intro c
    by_cases t : ch.tag = COMM
    · rw [List.filter_cons_of_pos (by simpa using t)]
      simp only [expectedC, if_pos t]
      exact ih _
    · rw [List.filter_cons_of_neg (by simpa using t)]
      simp only [expectedC, if_neg t]
      exact ih _

theorem expectedAudio_filter (chs : List Chunk) :
    ∀ b, expectedAudio b chs = expectedAudio b (chs.filter (fun ch => ch.tag = SSND)) := by
  induction chs with
  | nil => intro b; rfl
  | cons ch rest ih =>
    intro b
    by_cases t : ch.tag = SSND
    · rw [List.filter_cons_of_pos (by simpa using t)]
      have t1 : ¬ ch.tag = COMM := by rw [t]; decide
      simp only [expectedAudio, if_pos t, if_neg t1]
      exact ih _
    · rw [List.filter_cons_of_neg (by simpa using t)]
      simp only [expectedAudio, if_neg t, ite_self]
      exact ih _

theorem chunksBytes_append (l1 l2 : List Chunk) :
    chunksBytes (l1 ++ l2) = chunksBytes l1 ++ chunksBytes l2 := by
  induction l1 with
  | nil => rfl
  | cons ch rest ih =>
    rw [List.cons_append]
    simp only [chunksBytes]
    rw [ih, List.append_assoc]

theorem expectedC_skip (l1 l2 : List Chunk) (x : Chunk) (hx : x.tag ≠ COMM)
    (c : commonChunk) : expectedC c (l1 ++ x :: l2) = expectedC c (l1 ++ l2) := by
  rw [expectedC_filter, expectedC_filter (l1 ++ l2) c, List.filter_append, List.filter_append,
    List.filter_cons_of_neg (by simpa using hx)]

theorem expectedAudio_skip (l1 l2 : List Chunk) (x : Chunk) (hx : x.tag ≠ SSND)
    (b : Option (List Nat)) : expectedAudio b (l1 ++ x :: l2) = expectedAudio b (l1 ++ l2) := by
  rw [expectedAudio_filter, expectedAudio_filter (l1 ++ l2) b, List.filter_append,
    List.filter_append, List.filter_cons_of_neg (by simpa using hx)]

/-- C10. Unknown chunks are transparent: in a container of framed chunks `l1 ++ l2`,
inserting between `l1` and `l2` a framed chunk `x` whose tag is neither "COMM" nor
"SSND" (the FORM length adjusted, still below 2^31) leaves the parse result unchanged:
both files are read to the end without error, the same `commonChunk` is stored, and
the two `audio` sources answer every sequence of reads with the same bytes and errors
(or are both nil). -/
theorem unknown_chunk_transparent (l1 l2 : List Chunk) (x : Chunk) (fuel : Nat)
    (hf : (l1 ++ x :: l2).length < fuel) (hall : ∀ ch ∈ l1 ++ l2, ch.WF)
    (hxt : x.tag.length = 4) (hxl : x.payload.length < 2147483648)
    (hx1 : x.tag ≠ COMM) (hx2 : x.tag ≠ SSND)
    (hT : 4 + (chunksBytes (l1 ++ x :: l2)).length < 2147483648) :
    ∃ c a1 a2,
      mainRead fuel { bytes := container (l1 ++ l2), pos := 0 } =
        some (Outcome.parsed c a1) ∧
      mainRead fuel { bytes := container (l1 ++ x :: l2), pos := 0 } =
        some (Outcome.parsed c a2) ∧
      SameReads a1 a2 := by
  have hlen : (l1 ++ l2).length < fuel := by
    simp only [List.length_append, List.length_cons] at hf ⊢
    omega
  have hT1 : 4 + (chunksBytes (l1 ++ l2)).length < 2147483648 := by
    simp only [chunksBytes_append, chunksBytes, List.length_append] at hT ⊢
    omega
  have hall2 : ∀ ch ∈ l1 ++ x :: l2, ch.WF := by
    intro ch hch
    rcases List.mem_append.mp hch with h | h
    · exact hall ch (List.mem_append_left _ h)
    · rcases List.mem_cons.mp h with h | h
      · subst h
        exact ⟨hxt, hxl, fun t => absurd t hx1⟩
      · exact hall ch (List.mem_append_right _ h)
  obtain ⟨a1, r1, k1⟩ := mainRead_container (l1 ++ l2) fuel hlen hall hT1
  obtain ⟨a2, r2, k2⟩ := mainRead_container (l1 ++ x :: l2) fuel hf hall2 hT
  rw [expectedC_skip l1 l2 x hx1] at r2
  rw [expectedAudio_skip l1 l2 x hx2] at k2
  exact ⟨_, a1, a2, r1, r2, sameReads_of_audioHolds a1 a2 _ k1 k2⟩

theorem unknown_chunk_transparent_witness :
    ∃ c a1 a2,
      mainRead 4 { bytes := container (sampleChunks.take 1 ++ sampleChunks.drop 2), pos := 0 } =
        some (Outcome.parsed c a1) ∧
      mainRead 4
          { bytes := container (sampleChunks.take 1 ++
                       { tag := [78, 65, 77, 69], payload := [1, 2, 3] } :: sampleChunks.drop 2),
            pos := 0 } = some (Outcome.parsed c a2) ∧
      SameReads a1 a2 :=
  unknown_chunk_transparent (sampleChunks.take 1) (sampleChunks.drop 2)
    { tag := [78, 65, 77, 69], payload := [1, 2, 3] } 4 (by decide) (by decide) (by decide)
    (by decide) (by decide) (by decide) (by decide)

theorem runCallbacks_ok (calls : List (List Int × List Int)) :
    ∀ (g0 g : Globals), runCallbacks g0 calls = Except.ok g →
      g0.outfile.pos = g0.outfile.bytes.length →
      g.outfile = { bytes := g0.outfile.bytes ++ encodeInt32s (captured calls),
                    pos := g0.outfile.bytes.length + 4 * (captured calls).length } ∧
        g.nSamples = g0.nSamples + (captured calls).length := by
  induction calls with
  | nil =>
    intro g0 g h hp
    simp only [runCallbacks] at h
    cases h
    simp only [captured, encodeInt32s, List.append_nil, List.length_nil, Nat.mul_zero,
      Nat.add_zero, Nat.cast_zero, add_zero, ← hp, and_self]
  | cons c rest ih =>
    intro g0 g h hp
    obtain ⟨in_, out⟩ := c
    simp only [runCallbacks] at h
    split at h
    · cases h
    · rename_i g1 out1 hstep
      obtain ⟨e1, e2⟩ := processAudio_ok g0 in_ out _ hstep
      simp only [] at e1 e2
      rw [File.Write_append _ _ hp] at e1
      obtain ⟨r1, r2⟩ := ih g1 g h (by rw [e1]; simp [encodeInt32s_length])
      rw [e1] at r1
      simp only [] at r1
      refine ⟨?_, ?_⟩
      · rw [r1]
        simp only [captured, encodeInt32s_append, List.append_assoc, List.length_append,
          encodeInt32s_length]
        congr 1
        omega
      · rw [r2, e2]
        simp only [captured, List.length_append]
        push_cast
        omega

theorem encodeInt32_ofNat (n : Nat) (h : n < 4294967296) :
    encodeInt32 (n : Int) = PutUint32 n := by
  simp only [encodeInt32, uint32]
  congr 1
  omega

theorem decodeInt32s_encodeInt32s (l : List Int)
    (h : ∀ v ∈ l, -2147483648 ≤ v ∧ v < 2147483648) (rest : List Nat) :
    decodeInt32s l.length (encodeInt32s l ++ rest) = l := by
  induction l with
  | nil => rfl
  | cons v vs ih =>
    have hv := h v (List.mem_cons_self _ _)
    have e1 : Uint32 (encodeInt32s (v :: vs) ++ rest) = Uint32 (encodeInt32 v) := by
      simp only [encodeInt32s, encodeInt32, PutUint32, Uint32, List.cons_append,
        List.nil_append, List.getD_cons_zero, List.getD_cons_succ]
    have e2 : (encodeInt32s (v :: vs) ++ rest).drop 4 = encodeInt32s vs ++ rest := by
      simp only [encodeInt32s, List.append_assoc]
      exact List.drop_left' (encodeInt32_length v)
    simp only [List.length_cons, decodeInt32s]
    rw [e1, e2, int32_Uint32_encodeInt32 v hv.1 hv.2,
      ih (fun x hx => h x (List.mem_cons_of_mem _ hx))]

/-- The two chunks the writer produces for `N` samples with encoding `body`. -/
theorem finalized_is_container (N : Nat) (body : List Nat) (hb : body.length = 4 * N)
    (hN : 4 * N + 46 < 2147483648) :
    overwrite (overwrite (overwrite
        ((mainWriteHeader { bytes := [], pos := 0 }).bytes ++ body) 4
          (encodeInt32 (46 + 4 * (N : Int)))) 22 (encodeInt32 (N : Int))) 42
          (encodeInt32 (4 * (N : Int) + 8)) =
      container
        [{ tag := COMM,
           payload := encodeInt16 1 ++ encodeInt32 (N : Int) ++ encodeInt16 32 ++
             [0x40, 0x0e, 0xac, 0x44, 0, 0, 0, 0, 0, 0] },
         { tag := SSND, payload := [0, 0, 0, 0, 0, 0, 0, 0] ++ body }] := by
  have e1 : encodeInt32 (46 + 4 * (N : Int)) = PutUint32 (46 + 4 * N) := by
    rw [← encodeInt32_ofNat _ (by omega)]
    congr 1
  have e3 : encodeInt32 (4 * (N : Int) + 8) = PutUint32 (4 * N + 8) := by
    rw [← encodeInt32_ofNat _ (by omega)]
    congr 1
  have n2 : (encodeInt16 1 ++ encodeInt32 (N : Int) ++ encodeInt16 32 ++
      [0x40, 0x0e, 0xac, 0x44, 0, 0, 0, 0, 0, 0]).length = 18 := rfl
  have n3 : ([0, 0, 0, 0, 0, 0, 0, 0] ++ body).length = 4 * N + 8 := by
    rw [List.length_append, hb]
    exact Nat.add_comm _ _
  have n1 : 4 + (chunksBytes
      [{ tag := COMM,
         payload := encodeInt16 1 ++ encodeInt32 (N : Int) ++ encodeInt16 32 ++
           [0x40, 0x0e, 0xac, 0x44, 0, 0, 0, 0, 0, 0] },
       { tag := SSND, payload := [0, 0, 0, 0, 0, 0, 0, 0] ++ body }]).length = 46 + 4 * N := by
    simp only [chunksBytes, Chunk.bytes, List.length_append, n2, n3, PutUint32_length,
      List.length_nil]
    have c4 : COMM.length = 4 := rfl
    have s4 : SSND.length = 4 := rfl
    rw [c4, s4]
    omega
  unfold container
  rw [n1, e1, e3, mainWriteHeader_eq]
  simp only [chunksBytes, Chunk.bytes, n2, n3]
  simp [overwrite, encodeInt32, PutUint32, encodeInt16, PutUint16, FORM, AIFF, COMM, SSND,
    uint16]

theorem writer_chunks_wf (N : Nat) (body : List Nat) (hb : body.length = 4 * N)
    (hN : 4 * N + 46 < 2147483648) :
    ∀ ch ∈ [({ tag := COMM,
               payload := encodeInt16 1 ++ encodeInt32 (N : Int) ++ encodeInt16 32 ++
                 [0x40, 0x0e, 0xac, 0x44, 0, 0, 0, 0, 0, 0] } : Chunk),
            { tag := SSND, payload := [0, 0, 0, 0, 0, 0, 0, 0] ++ body }], ch.WF := by
  intro ch hch
  simp only [List.mem_cons, List.mem_singleton, List.not_mem_nil, or_false] at hch
  rcases hch with rfl | rfl
  · exact ⟨rfl, (by norm_num : (18 : Nat) < 2147483648), fun _ => Nat.le_refl 18⟩
  · refine ⟨rfl, ?_, fun h => absurd h (by decide : ¬ SSND = COMM)⟩
    simp only [List.length_append, hb, List.length_cons, List.length_nil]
    omega

theorem writer_chunks_total (N : Nat) (body : List Nat) (hb : body.length = 4 * N) :
    4 + (chunksBytes
      [{ tag := COMM,
         payload := encodeInt16 1 ++ encodeInt32 (N : Int) ++ encodeInt16 32 ++
           [0x40, 0x0e, 0xac, 0x44, 0, 0, 0, 0, 0, 0] },
       { tag := SSND, payload := [0, 0, 0, 0, 0, 0, 0, 0] ++ body }]).length = 46 + 4 * N := by
  have n2 : (encodeInt16 1 ++ encodeInt32 (N : Int) ++ encodeInt16 32 ++
      [0x40, 0x0e, 0xac, 0x44, 0, 0, 0, 0, 0, 0]).length = 18 := rfl
  have n3 : ([0, 0, 0, 0, 0, 0, 0, 0] ++ body).length = 4 * N + 8 := by
    rw [List.length_append, hb]
    exact Nat.add_comm _ _
  simp only [chunksBytes, Chunk.bytes, List.length_append, n2, n3, PutUint32_length,
    List.length_nil]
  have c4 : COMM.length = 4 := rfl
  have s4 : SSND.length = 4 := rfl
  rw [c4, s4]
  omega

theorem writer_common_chunk (N : Nat) (body : List Nat) (hN : 4 * N + 46 < 2147483648) :
    expectedC commonChunk.zero
      [{ tag := COMM,
         payload := encodeInt16 1 ++ encodeInt32 (N : Int) ++ encodeInt16 32 ++
           [0x40, 0x0e, 0xac, 0x44, 0, 0, 0, 0, 0, 0] },
       { tag := SSND, payload := [0, 0, 0, 0, 0, 0, 0, 0] ++ body }] =
      { NumChans := 1, NumSamples := N, BitsPerSample := 32,
        SampleRate := [0x40, 0x0e, 0xac, 0x44, 0, 0, 0, 0, 0, 0] } := by
  have t1 : ¬ SSND = COMM := by decide
  simp only [expectedC, if_true, if_neg t1]
  have e : int32 (Uint32 (encodeInt32 (N : Int))) = N :=
    int32_Uint32_encodeInt32 _ (by omega) (by omega)
  simp only [commonChunk.decode]
  have p1 : (List.take 18 (encodeInt16 1 ++ encodeInt32 (N : Int) ++ encodeInt16 32 ++
      [0x40, 0x0e, 0xac, 0x44, 0, 0, 0, 0, 0, 0])) =
      encodeInt16 1 ++ encodeInt32 (N : Int) ++ encodeInt16 32 ++
        [0x40, 0x0e, 0xac, 0x44, 0, 0, 0, 0, 0, 0] := List.take_of_length_le (Nat.le_refl 18)
  rw [p1]
  have p2 : List.take 4 (List.drop 2 (encodeInt16 1 ++ encodeInt32 (N : Int) ++ encodeInt16 32 ++
      [0x40, 0x0e, 0xac, 0x44, 0, 0, 0, 0, 0, 0])) = encodeInt32 (N : Int) := rfl
  have p3 : List.take 2 (encodeInt16 1 ++ encodeInt32 (N : Int) ++ encodeInt16 32 ++
      [0x40, 0x0e, 0xac, 0x44, 0, 0, 0, 0, 0, 0]) = encodeInt16 1 := rfl
  have p4 : List.take 2 (List.drop 6 (encodeInt16 1 ++ encodeInt32 (N : Int) ++ encodeInt16 32 ++
      [0x40, 0x0e, 0xac, 0x44, 0, 0, 0, 0, 0, 0])) = encodeInt16 32 := rfl
  have p5 : List.take 10 (List.drop 8 (encodeInt16 1 ++ encodeInt32 (N : Int) ++
      encodeInt16 32 ++ [0x40, 0x0e, 0xac, 0x44, 0, 0, 0, 0, 0, 0])) =
      [0x40, 0x0e, 0xac, 0x44, 0, 0, 0, 0, 0, 0] := rfl
  have q1 : int16 (Uint16 (encodeInt16 1)) = 1 := by decide
  have q2 : int16 (Uint16 (encodeInt16 32)) = 32 := by decide
  rw [p2, p3, p4, p5, e, q1, q2]

theorem writer_audio (N : Nat) (body : List Nat) :
    expectedAudio none
      [{ tag := COMM,
         payload := encodeInt16 1 ++ encodeInt32 (N : Int) ++ encodeInt16 32 ++
           [0x40, 0x0e, 0xac, 0x44, 0, 0, 0, 0, 0, 0] },
       { tag := SSND, payload := [0, 0, 0, 0, 0, 0, 0, 0] ++ body }] = some body := by
  have t1 : ¬ SSND = COMM := by decide
  simp only [expectedAudio, if_true, if_neg t1]
  rfl

/-- C1. Round trip: the header written on the empty output file, any sequence of
callbacks that returns, with captured samples in the `int32` range and a total count `N`
with `4*N + 46 < 2^31`, then the finalization block: the reader, run on the resulting
file, ends normally with `NumSamples = N`, `NumChans = 1`, `BitsPerSample = 32` and an
`audio` source that delivers exactly `4*N` bytes whose big-endian `int32` decoding is
the concatenation of the captured blocks in order. -/
theorem round_trip (g0 g : Globals) (calls : List (List Int × List Int)) (fuel : Nat)
    (hout : g0.outfile = mainWriteHeader { bytes := [], pos := 0 }) (hn0 : g0.nSamples = 0)
    (hrun : runCallbacks g0 calls = Except.ok g)
    (hrange : ∀ v ∈ captured calls, -2147483648 ≤ v ∧ v < 2147483648)
    (hN : 4 * (captured calls).length + 46 < 2147483648) (hfuel : 3 ≤ fuel) :
    ∃ f c a bytes, mainFinalize g.outfile g.nSamples = Except.ok f ∧
      mainRead fuel { bytes := f.bytes, pos := 0 } = some (Outcome.parsed c (some a)) ∧
      g.nSamples = (captured calls).length ∧
      c.NumSamples = (captured calls).length ∧ c.NumChans = 1 ∧ c.BitsPerSample = 32 ∧
      ReadsExactly a bytes ∧ bytes.length = 4 * (captured calls).length ∧
      decodeInt32s (captured calls).length bytes = captured calls := by
  have hp : g0.outfile.pos = g0.outfile.bytes.length := by
    rw [hout, mainWriteHeader_eq]
    rfl
  obtain ⟨e1, e2⟩ := runCallbacks_ok calls g0 g hrun hp
  rw [hn0, zero_add] at e2
  have hb := encodeInt32s_length (captured calls)
  have hfin := mainFinalize_eq g.outfile (captured calls).length (by
    rw [e1, hout, mainWriteHeader_eq]
    simp only [List.length_append, List.length_cons, List.length_nil]
    omega)
  have hbytes : g.outfile.bytes =
      (mainWriteHeader { bytes := [], pos := 0 }).bytes ++ encodeInt32s (captured calls) := by
    rw [e1, hout]
  rw [hbytes, finalized_is_container _ _ hb hN] at hfin
  obtain ⟨f, hf1, hf2⟩ : ∃ f : File,
      mainFinalize g.outfile ((captured calls).length : Int) = Except.ok f ∧
      f.bytes = container
        [{ tag := COMM,
           payload := encodeInt16 1 ++ encodeInt32 ((captured calls).length : Int) ++
             encodeInt16 32 ++ [0x40, 0x0e, 0xac, 0x44, 0, 0, 0, 0, 0, 0] },
         { tag := SSND,
           payload := [0, 0, 0, 0, 0, 0, 0, 0] ++ encodeInt32s (captured calls) }] :=
    ⟨_, hfin, rfl⟩
  obtain ⟨au, r1, r2⟩ := mainRead_file _ fuel { bytes := f.bytes, pos := 0 } hf2 rfl
    (by simp only [List.length_cons, List.length_nil]; omega)
    (writer_chunks_wf _ _ hb hN)
    (by rw [writer_chunks_total _ _ hb]; omega)
  rw [writer_common_chunk _ _ hN] at r1
  rw [writer_audio] at r2
  cases au with
  | none => simp only [AudioHolds] at r2
  | some a =>
    simp only [AudioHolds] at r2
    have hd := decodeInt32s_encodeInt32s (captured calls) hrange []
    rw [List.append_nil] at hd
    rw [← e2] at hf1
    exact ⟨f, _, a, encodeInt32s (captured calls), hf1, r1, e2, rfl, rfl, rfl,
      readsExactly_of_avail a _ r2.1 r2.2.1 r2.2.2, hb, hd⟩
theorem round_trip_witness :
    ∃ f c a bytes, mainFinalize captureEnd.outfile captureEnd.nSamples = Except.ok f ∧
      mainRead 3 { bytes := f.bytes, pos := 0 } = some (Outcome.parsed c (some a)) ∧
      captureEnd.nSamples = (captured captureCalls).length ∧
      c.NumSamples = (captured captureCalls).length ∧ c.NumChans = 1 ∧ c.BitsPerSample = 32 ∧
      ReadsExactly a bytes ∧ bytes.length = 4 * (captured captureCalls).length ∧
      decodeInt32s (captured captureCalls).length bytes = captured captureCalls :=
  round_trip captureStart captureEnd captureCalls 3 rfl rfl (by rfl) (by decide) (by decide)
    (by decide)

theorem ID.fill_of_length (id b : List Nat) (hid : id.length = 4) (hb : b.length = 4) :
    ID.fill id b = b := by
  unfold ID.fill
  rw [hb, List.drop_of_length_le (Nat.le_of_eq hid), List.append_nil]

theorem mainRead_of_readChunk (fuel : Nat) (f : File) (id : ID) (d : SectionReader) (r : File)
    (h : readChunk f = { id := id, data := some d, err := none, r := r }) :
    mainRead fuel f =
      if id ≠ FORM then some Outcome.badFormat
      else
        match (d.Read 4).2.1 with
        | some e => some (Outcome.panic e)
        | none =>
          if ID.fill id (d.Read 4).1 ≠ AIFF then some Outcome.badFormat
          else scanLoop fuel (d.Read 4).2.2 commonChunk.zero none := by
  delta mainRead
  rw [h]

theorem mainRead_of_readChunk_err (fuel : Nat) (f : File) (e : Error)
    (h : (readChunk f).err = some e) : mainRead fuel f = some (Outcome.panic e) := by
  delta mainRead
  simp only [h]

theorem mainRead_bad_tag (f : File) (fuel : Nat) (h8 : 8 ≤ f.avail.length)
    (hL : 0 ≤ (f.pos : Int) + 8 + int32 (Uint32 ((f.avail.drop 4).take 4)))
    (ht : f.avail.take 4 ≠ FORM) : mainRead fuel f = some Outcome.badFormat := by
  have hok := readChunk_file_ok f h8
  rw [if_neg (by omega), if_neg (by omega)] at hok
  rw [mainRead_of_readChunk fuel f _ _ _ hok, if_pos ht]

theorem mainRead_bad_form_type (f : File) (fuel : Nat) (hp : f.pos = 0)
    (h12 : 12 ≤ f.avail.length)
    (hL : 4 ≤ int32 (Uint32 ((f.avail.drop 4).take 4)))
    (ht : f.avail.take 4 = FORM) (hty : (f.avail.drop 8).take 4 ≠ AIFF) :
    mainRead fuel f = some Outcome.badFormat := by
  have hok := readChunk_file_ok f (by omega)
  rw [if_neg (by omega), if_neg (by omega)] at hok
  obtain ⟨L, hLn⟩ : ∃ L : Nat, int32 (Uint32 ((f.avail.drop 4).take 4)) = (L : Int) :=
    ⟨(int32 (Uint32 ((f.avail.drop 4).take 4))).toNat, by omega⟩
  have hlt : int32 (Uint32 ((f.avail.drop 4).take 4)) < 2147483648 := by
    unfold int32
    omega
  rw [hLn] at hok hL hlt
  have nsr := NewSectionReader_of_fits (ReaderAt.file f.bytes) ((f.pos : Int) + 8) (L : Int)
    (by omega) (by omega) (by omega)
  have hav : (NewSectionReader (ReaderAt.file f.bytes) ((f.pos : Int) + 8) (L : Int)).avail =
      (f.avail.drop 8).take L := by
    have h1 := avail_newSection_file f.bytes (f.pos + 8) L (by push_cast; omega)
    rw [← List.drop_drop] at h1
    unfold File.avail
    rw [← h1]
    have e : ((f.pos + 8 : Nat) : Int) = (f.pos : Int) + 8 := by omega
    rw [e]
  have hdo : 0 ≤ (NewSectionReader (ReaderAt.file f.bytes) ((f.pos : Int) + 8) (L : Int)).off := by
    rw [nsr]; simp only []; omega
  have hdl : (NewSectionReader (ReaderAt.file f.bytes) ((f.pos : Int) + 8) (L : Int)).off + 4 ≤
      (NewSectionReader (ReaderAt.file f.bytes) ((f.pos : Int) + 8) (L : Int)).limit := by
    rw [nsr]; simp only []; omega
  have hdr : (NewSectionReader (ReaderAt.file f.bytes) ((f.pos : Int) + 8) (L : Int)).r.WF :=
    trivial
  clear nsr
  generalize NewSectionReader (ReaderAt.file f.bytes) ((f.pos : Int) + 8) (L : Int) = d
    at hok hav hdo hdl hdr
  have hrd := section_Read_spec d hdr hdo 4 (by omega)
  have t4 : d.avail.take 4 = (f.avail.drop 8).take 4 := by
    have m : min 4 L = 4 := by omega
    rw [hav, List.take_take, m]
  have e4 : ((f.avail.drop 8).take 4).length = 4 :=
    List.length_take_of_le (by rw [List.length_drop]; omega)
  rw [t4, e4, if_neg (by omega)] at hrd
  have n1 : ¬ (FORM ≠ FORM) := fun h => h rfl
  rw [mainRead_of_readChunk fuel f _ _ _ hok, hrd, ht, if_neg n1]
  simp only []
  rw [ID.fill_of_length FORM _ rfl e4, if_pos hty]

theorem mainOpen_of_badFormat (fuel : Nat) (f : File)
    (h : mainRead fuel f = some Outcome.badFormat) :
    mainOpen fuel f = some (Outcome.badFormat, { bytes := [], pos := 0 }) := by
  delta mainOpen
  rw [h]

/-- C11 as stated fails: an input whose first four bytes are not "FORM" and whose next
four bytes read as a negative `int32` below -8 makes the seek in `readChunk` fail, and the
run ends in the panic of `chk`, not in the bad-format return. -/
theorem bad_tag_negative_length_panics :
    gzipLikeFile.bytes.take 4 ≠ FORM ∧
      mainOpen 1 gzipLikeFile = some (Outcome.panic Error.errOffset, { bytes := [], pos := 0 }) ∧
      mainOpen 1 gzipLikeFile ≠ some (Outcome.badFormat, { bytes := [], pos := 0 }) := by
  decide

/-- C11 (as the code has it). Bad container rejection, for an input file (cursor at 0)
that holds the 8 bytes of the outer header with a length field `L ≥ -8` (as `int32`):
when the outer tag is not "FORM", and also when it is "FORM" with `L ≥ 4`, the file
holds the four bytes of the form type and these are not "AIFF", the run ends with the
bad-format return and the output file, already created, is still empty. -/
theorem bad_container_rejected (f : File) (fuel : Nat) (hpos : f.pos = 0)
    (h8 : 8 ≤ f.bytes.length) (hL : -8 ≤ int32 (Uint32 ((f.bytes.drop 4).take 4))) :
    (f.bytes.take 4 ≠ FORM →
        mainOpen fuel f = some (Outcome.badFormat, { bytes := [], pos := 0 })) ∧
      (f.bytes.take 4 = FORM → 4 ≤ int32 (Uint32 ((f.bytes.drop 4).take 4)) →
        12 ≤ f.bytes.length → (f.bytes.drop 8).take 4 ≠ AIFF →
        mainOpen fuel f = some (Outcome.badFormat, { bytes := [], pos := 0 })) := by
  have ha : f.avail = f.bytes := by
    unfold File.avail
    rw [hpos, List.drop_zero]
  constructor
  · intro ht
    exact mainOpen_of_badFormat fuel f
      (mainRead_bad_tag f fuel (by rw [ha]; exact h8) (by rw [ha]; omega) (by rw [ha]; exact ht))
  · intro ht h4 h12 hty
    exact mainOpen_of_badFormat fuel f
      (mainRead_bad_form_type f fuel hpos (by rw [ha]; exact h12) (by rw [ha]; exact h4)
        (by rw [ha]; exact ht) (by rw [ha]; exact hty))

theorem bad_container_rejected_witness :
    mainOpen 5 riffFile = some (Outcome.badFormat, { bytes := [], pos := 0 }) ∧
      mainOpen 5 aifcFile = some (Outcome.badFormat, { bytes := [], pos := 0 }) :=
  ⟨(bad_container_rejected riffFile 5 rfl (by decide) (by decide)).1 (by decide),
    (bad_container_rejected aifcFile 5 rfl (by decide) (by decide)).2 (by decide) (by decide)
      (by decide) (by decide)⟩

theorem Uint32_congr (l1 l2 : List Nat) (h : ∀ k, k < 4 → l1[k]? = l2[k]?) :
    Uint32 l1 = Uint32 l2 := by
  have e : ∀ k, k < 4 → l1.getD k 0 = l2.getD k 0 := by
    intro k hk
    rw [List.getD_eq_getElem?_getD, List.getD_eq_getElem?_getD, h k hk]
  simp only [Uint32, e 0 (by omega), e 1 (by omega), e 2 (by omega), e 3 (by omega)]

theorem decodeInt32s_getElem? (n : Nat) :
    ∀ (b : List Nat) (i : Nat), i < n →
      (decodeInt32s n b)[i]? = some (int32 (Uint32 (b.drop (4 * i)))) := by
  induction n with
  | zero => intro b i h; omega
  | succ m ih =>
    intro b i h
    cases i with
    | zero => simp only [decodeInt32s, List.getElem?_cons_zero, Nat.mul_zero, List.drop_zero]
    | succ j =>
      simp only [decodeInt32s, List.getElem?_cons_succ]
      have e : 4 + 4 * j = 4 * (j + 1) := by omega
      rw [ih _ j (by omega), List.drop_drop, e]

theorem int32_Uint32_bytes (l : List Nat) (h : l.length = 4) :
    ∃ b0 b1 b2 b3 : Nat, l = [b0, b1, b2, b3] ∧
      int32 (Uint32 l) =
        (((b0 * 16777216 + b1 * 65536 + b2 * 256 + b3 : Nat) : Int) + 2147483648) % 4294967296 -
          2147483648 := by
  match l, h with
  | [b0, b1, b2, b3], _ => exact ⟨b0, b1, b2, b3, rfl, rfl⟩

/-- C12. Playback fill and frame: in a call to `processAudio` with `remaining = r ≥ 0`
and a source holding at least `r` further samples, with `n = min (len out) r`, the call
returns; the buffer keeps its length, slot `i < n` holds the big-endian `int32` made of
the source bytes `4i .. 4i+4` behind the cursor (`b0 b1 b2 b3` give
`b0 * 2^24 + b1 * 2^16 + b2 * 2^8 + b3`, taken as a two's-complement 32-bit value), every
slot from `n` on keeps its content, the source cursor has moved by exactly `4n` bytes
(the bytes left are the former ones without the first `4n`), and `remaining` is
`r - n`. -/
theorem playback_fill_and_frame (g : Globals) (a : SectionReader) (in_ out : List Int)
    (ha : g.audio = some a) (hwf : a.r.WF) (h0 : 0 ≤ a.off) (hr : 0 ≤ g.remaining)
    (hav : 4 * g.remaining.toNat ≤ a.avail.length) :
    ∃ g1 out1 a1, processAudio g in_ out = Except.ok (g1, out1) ∧ g1.audio = some a1 ∧
      out1.length = out.length ∧
      (∀ i, i < min out.length g.remaining.toNat →
        out1[i]? = some (int32 (Uint32 ((a.avail.drop (4 * i)).take 4)))) ∧
      (∀ i, min out.length g.remaining.toNat ≤ i → out1[i]? = out[i]?) ∧
      a1.off = a.off + 4 * (min out.length g.remaining.toNat : Nat) ∧
      a1.avail = a.avail.drop (4 * min out.length g.remaining.toNat) ∧
      g1.remaining = g.remaining - (min out.length g.remaining.toNat : Nat) ∧
      (∀ i, i < min out.length g.remaining.toNat →
        ∃ b0 b1 b2 b3 : Nat, (a.avail.drop (4 * i)).take 4 = [b0, b1, b2, b3] ∧
          out1[i]? = some
            ((((b0 * 16777216 + b1 * 65536 + b2 * 256 + b3 : Nat) : Int) + 2147483648) %
              4294967296 - 2147483648)) := by
  have hdl := decodeInt32s_length (min out.length g.remaining.toNat)
    (a.avail.take (4 * min out.length g.remaining.toNat))
  have hslot : ∀ i, i < min out.length g.remaining.toNat →
      (decodeInt32s (min out.length g.remaining.toNat)
          (a.avail.take (4 * min out.length g.remaining.toNat)) ++
        out.drop (min out.length g.remaining.toNat))[i]? =
        some (int32 (Uint32 ((a.avail.drop (4 * i)).take 4))) := by
    intro i hi
    rw [List.getElem?_append_left (by rw [hdl]; exact hi), decodeInt32s_getElem? _ _ i hi]
    have hu : Uint32 (List.drop (4 * i) (List.take (4 * min out.length g.remaining.toNat) a.avail))
        = Uint32 (List.take 4 (List.drop (4 * i) a.avail)) := by
      apply Uint32_congr
      intro k hk
      rw [List.getElem?_drop, List.getElem?_take, List.getElem?_take, List.getElem?_drop,
        if_pos (by omega), if_pos hk]
    rw [hu]
  refine ⟨_, _, _, processAudio_step g a in_ out ha hwf h0 hr hav, rfl, ?_, hslot, ?_, ?_, ?_,
    rfl, ?_⟩
  · rw [List.length_append, hdl, List.length_drop]
    omega
  · intro i hi
    rw [List.getElem?_append_right (by rw [hdl]; exact hi), hdl, List.getElem?_drop]
    have e : min out.length g.remaining.toNat + (i - min out.length g.remaining.toNat) = i := by
      omega
    rw [e]
  · simp only []
    push_cast
    rfl
  · exact section_avail_advance a h0 _
  · intro i hi
    have hl : ((a.avail.drop (4 * i)).take 4).length = 4 := by
      rw [List.length_take, List.length_drop]
      omega
    obtain ⟨b0, b1, b2, b3, e1, e2⟩ := int32_Uint32_bytes _ hl
    exact ⟨b0, b1, b2, b3, e1, by rw [hslot i hi, e2]⟩

theorem playback_fill_and_frame_witness :
    ∃ g1 out1 a1, processAudio fillStart [5] [7, 7, 7] = Except.ok (g1, out1) ∧
      g1.audio = some a1 ∧ out1.length = 3 ∧
      out1[0]? = some 1 ∧ out1[1]? = some 2 ∧ out1[2]? = some 7 ∧
      a1.off = 8 ∧ a1.avail = [255, 255, 255, 255] ∧ g1.remaining = 0 := by
  obtain ⟨g1, out1, a1, h1, h2, h3, _, h5, h6, h7, h8, h9⟩ :=
    playback_fill_and_frame fillStart fillSource [5] [7, 7, 7] rfl trivial (by decide)
      (by decide) (by decide)
  obtain ⟨x0, x1, x2, x3, ex, hx⟩ := h9 0 (by decide)
  obtain ⟨y0, y1, y2, y3, ey, hy⟩ := h9 1 (by decide)
  have ex1 : ([0, 0, 0, 1] : List Nat) = [x0, x1, x2, x3] := ex
  have ey1 : ([0, 0, 0, 2] : List Nat) = [y0, y1, y2, y3] := ey
  simp only [List.cons.injEq, and_true] at ex1 ey1
  obtain ⟨rfl, rfl, rfl, rfl⟩ := ex1
  obtain ⟨rfl, rfl, rfl, rfl⟩ := ey1
  exact ⟨g1, out1, a1, h1, h2, h3, hx.trans (by norm_num), hy.trans (by norm_num),
    (h5 2 (by decide)).trans (by rfl), h6.trans (by decide), h7.trans (by decide),
    h8.trans (by decide)⟩

theorem mainOpen_of_parsed (fuel : Nat) (f : File) (c : commonChunk)
    (au : Option SectionReader) (h : mainRead fuel f = some (Outcome.parsed c au)) :
    mainOpen fuel f = some (Outcome.parsed c au, mainWriteHeader { bytes := [], pos := 0 }) := by
  delta mainOpen
  rw [h]

theorem audioHolds_none (au : Option SectionReader) (h : AudioHolds au none) : au = none := by
  cases au with
  | none => rfl
  | some a => simp only [AudioHolds] at h

set_option maxRecDepth 100000 in
/-- C13 as stated fails: on a container with a COMM chunk and no SSND chunk the reader
ends the scan normally with `audio` nil, and `main` goes on to write the 54-byte output
header. -/
theorem missing_ssnd_reaches_header :
    noSoundChunks.filter (fun ch => ch.tag = SSND) = [] ∧
      mainOpen 2 { bytes := container noSoundChunks, pos := 0 } =
        some (Outcome.parsed
          { NumChans := 1, NumSamples := 128, BitsPerSample := 32,
            SampleRate := [64, 14, 172, 68, 0, 0, 0, 0, 0, 0] } none,
          mainWriteHeader { bytes := [], pos := 0 }) ∧
      (mainWriteHeader { bytes := [], pos := 0 }).bytes.length = 54 := by
  decide

/-- C13 (as the code has it). The reader has no missing-chunk check: for every container
of framed chunks, also one that lacks the COMM chunk or the SSND chunk, the scan ends
normally at the end of the chunks and `main` goes on to write the output header; without
a COMM chunk `c` keeps its zero value (so `remaining` is seeded with 0), without an SSND
chunk `audio` stays nil. -/
theorem missing_chunk_not_detected (chs : List Chunk) (fuel : Nat) (hf : chs.length < fuel)
    (hall : ∀ ch ∈ chs, ch.WF) (hT : 4 + (chunksBytes chs).length < 2147483648) :
    ∃ c au, mainOpen fuel { bytes := container chs, pos := 0 } =
        some (Outcome.parsed c au, mainWriteHeader { bytes := [], pos := 0 }) ∧
      (chs.filter (fun ch => ch.tag = COMM) = [] → c = commonChunk.zero ∧ c.NumSamples = 0) ∧
      (chs.filter (fun ch => ch.tag = SSND) = [] → au = none) := by
  obtain ⟨au, h1, h2⟩ := mainRead_container chs fuel hf hall hT
  refine ⟨_, au, mainOpen_of_parsed fuel _ _ au h1, ?_, ?_⟩
  · intro h
    rw [expectedC_filter, h]
    exact ⟨rfl, rfl⟩
  · intro h
    rw [expectedAudio_filter, h] at h2
    exact audioHolds_none au h2

theorem missing_chunk_not_detected_witness :
    ∃ c au, mainOpen 2 { bytes := container noSoundChunks, pos := 0 } =
        some (Outcome.parsed c au, mainWriteHeader { bytes := [], pos := 0 }) ∧
      (noSoundChunks.filter (fun ch => ch.tag = COMM) = [] →
        c = commonChunk.zero ∧ c.NumSamples = 0) ∧
      (noSoundChunks.filter (fun ch => ch.tag = SSND) = [] → au = none) :=
  missing_chunk_not_detected noSoundChunks 2 (by decide) (by decide) (by decide)

theorem ReadFull_past_limit (s : SectionReader) (h : s.off ≥ s.limit) (n : Nat) (hn : 0 < n) :
    ReadFull s n = ([], some Error.EOF, s) := by
  obtain ⟨m, rfl⟩ : ∃ m, n = m + 1 := ⟨n - 1, by omega⟩
  unfold ReadFull
  rw [ReadAtLeastLoop]
  simp only [List.length_nil, Nat.le_zero_eq, Nat.add_one_ne_zero, if_false, Nat.sub_zero,
    List.nil_append, instRead_section]
  have hr : s.Read (m + 1) = ([], some Error.EOF, s) := by
    unfold SectionReader.Read
    rw [if_pos h]
  rw [hr]
  simp

theorem int32_of_small (U : Nat) (h : U < 2147483648) : int32 (U : Int) = U := by
  unfold int32
  omega

theorem int32_of_large (U : Nat) (h1 : 2147483648 ≤ U) (h2 : U < 4294967296) :
    int32 (U : Int) = (U : Int) - 4294967296 := by
  unfold int32
  omega

theorem avail_to_end_file (f : File) (k : Nat)
    (hsize : (f.bytes.length : Int) ≤ 9223372036854775807) :
    SectionReader.avail { r := ReaderAt.file f.bytes, base := f.pos + k, off := f.pos + k,
                          limit := 9223372036854775807 } = f.avail.drop k := by
  unfold SectionReader.avail File.avail
  simp only [ReaderAt.view]
  have e : ((f.pos : Int) + k).toNat = f.pos + k := by omega
  have hl : (f.bytes.drop (f.pos + k)).length ≤
      ((9223372036854775807 : Int) - ((f.pos : Int) + k)).toNat := by
    rw [List.length_drop]
    omega
  rw [e, List.take_of_length_le hl, List.drop_drop]

theorem avail_to_end_section (s : SectionReader) (hb : 0 ≤ s.base) (h0 : s.base ≤ s.off)
    (k : Nat) (hlim : s.limit ≤ 9223372036854775807) :
    SectionReader.avail { r := ReaderAt.sect s.r s.base s.limit, base := s.off + k - s.base,
                          off := s.off + k - s.base, limit := 9223372036854775807 } =
      s.avail.drop k := by
  rw [← section_avail_advance s (by omega) k]
  unfold SectionReader.avail
  simp only [ReaderAt.view]
  rw [List.drop_take, List.drop_drop, List.take_take]
  congr 1
  · omega
  · congr 1
    omega

set_option maxRecDepth 100000 in
/-- C14 as stated fails: for the length bytes FF FF FF F8 (4294967288 as an unsigned
number) `readChunk` returns a view from offset 8 up to the largest `int64`, not one of
4294967288 bytes, and sets the cursor back to 0, the start of the chunk, instead of
8 + 4294967288 further. -/
theorem top_bit_length_read_as_negative :
    Uint32 ((topBitLengthFile.bytes.drop 4).take 4) = 4294967288 ∧
      (readChunk topBitLengthFile).err = none ∧
      (readChunk topBitLengthFile).data =
        some { r := ReaderAt.file topBitLengthFile.bytes, base := 8, off := 8,
               limit := 9223372036854775807 } ∧
      (readChunk topBitLengthFile).data.map (fun d => d.limit - d.base) ≠ some 4294967288 ∧
      (readChunk topBitLengthFile).r.pos = 0 ∧
      (readChunk topBitLengthFile).r.pos ≠ topBitLengthFile.pos + 8 + 4294967288 := by
  decide

/-- C14 (as the code has it). `readChunk` reads the length field as a signed 32-bit
big-endian integer `n`, on a file source `f` and on a section source `s` alike (8 header
bytes present; the file size and the limit of `s` are `int64` values): the view starts
behind the header, the cursor is set `8 + n` from the chunk start, and the seek fails
when that is before the start of the source.  For a field value `U < 2^31`, `n = U`,
and the view ends `n` bytes behind its start (when that offset is an `int64`); for
`2^31 ≤ U < 2^32`, `n = U - 2^32 < 0`, the view ends at the largest `int64` and
delivers every byte of the source behind the header. -/
theorem readChunk_length_is_signed (f : File) (s : SectionReader) (hwf : s.r.WF)
    (hb : 0 ≤ s.base) (h0 : s.base ≤ s.off) (hf8 : 8 ≤ f.avail.length)
    (hs8 : 8 ≤ s.avail.length)
    (hsize : (f.bytes.length : Int) ≤ 9223372036854775807)
    (hlim : s.limit ≤ 9223372036854775807) :
    readChunk f =
        { id := f.avail.take 4,
          data := some (NewSectionReader (ReaderAt.file f.bytes) (f.pos + 8)
            (int32 (Uint32 ((f.avail.drop 4).take 4)))),
          err := if (f.pos : Int) + 8 + int32 (Uint32 ((f.avail.drop 4).take 4)) < 0
            then some Error.errOffset else none,
          r := if (f.pos : Int) + 8 + int32 (Uint32 ((f.avail.drop 4).take 4)) < 0
            then { f with pos := f.pos + 8 }
            else { f with
              pos := ((f.pos : Int) + 8 + int32 (Uint32 ((f.avail.drop 4).take 4))).toNat } } ∧
      readChunk s =
        { id := s.avail.take 4,
          data := some (NewSectionReader (ReaderAt.sect s.r s.base s.limit)
            (s.off + 8 - s.base) (int32 (Uint32 ((s.avail.drop 4).take 4)))),
          err := if s.off + 8 + int32 (Uint32 ((s.avail.drop 4).take 4)) < s.base
            then some Error.errOffset else none,
          r := if s.off + 8 + int32 (Uint32 ((s.avail.drop 4).take 4)) < s.base
            then { s with off := s.off + 8 }
            else { s with off := s.off + 8 + int32 (Uint32 ((s.avail.drop 4).take 4)) } } ∧
      (∀ U : Nat, U < 2147483648 → int32 (U : Int) = U) ∧
      (∀ U : Nat, 2147483648 ≤ U → U < 4294967296 → int32 (U : Int) = (U : Int) - 4294967296) ∧
      (0 ≤ int32 (Uint32 ((f.avail.drop 4).take 4)) →
        (f.pos : Int) + 8 + int32 (Uint32 ((f.avail.drop 4).take 4)) ≤ 9223372036854775807 →
        (readChunk f).data =
          some { r := ReaderAt.file f.bytes, base := f.pos + 8, off := f.pos + 8,
                 limit := f.pos + 8 + int32 (Uint32 ((f.avail.drop 4).take 4)) }) ∧
      (0 ≤ int32 (Uint32 ((s.avail.drop 4).take 4)) →
        s.off + 8 - s.base + int32 (Uint32 ((s.avail.drop 4).take 4)) ≤ 9223372036854775807 →
        (readChunk s).data =
          some { r := ReaderAt.sect s.r s.base s.limit, base := s.off + 8 - s.base,
                 off := s.off + 8 - s.base,
                 limit := s.off + 8 - s.base + int32 (Uint32 ((s.avail.drop 4).take 4)) }) ∧
      (int32 (Uint32 ((f.avail.drop 4).take 4)) < 0 →
        (readChunk f).data =
          some { r := ReaderAt.file f.bytes, base := f.pos + 8, off := f.pos + 8,
                 limit := 9223372036854775807 } ∧
        ReadsExactly { r := ReaderAt.file f.bytes, base := f.pos + 8, off := f.pos + 8,
                       limit := 9223372036854775807 } (f.avail.drop 8)) ∧
      (int32 (Uint32 ((s.avail.drop 4).take 4)) < 0 →
        (readChunk s).data =
          some { r := ReaderAt.sect s.r s.base s.limit, base := s.off + 8 - s.base,
                 off := s.off + 8 - s.base, limit := 9223372036854775807 } ∧
        ReadsExactly { r := ReaderAt.sect s.r s.base s.limit, base := s.off + 8 - s.base,
                       off := s.off + 8 - s.base, limit := 9223372036854775807 }
          (s.avail.drop 8)) := by
  have hF := readChunk_file_ok f hf8
  have hS := readChunk_section_ok s hwf hb h0 hs8
  have lo : ∀ x : Int, -9223372036854775808 ≤ int32 x := by
    intro x
    unfold int32
    omega
  refine ⟨hF, hS, int32_of_small, int32_of_large, ?_, ?_, ?_, ?_⟩
  · intro hn hfit
    rw [hF]
    simp only []
    rw [NewSectionReader_of_fits _ _ _ hn (by omega) hfit]
  · intro hn hfit
    rw [hS]
    simp only []
    rw [NewSectionReader_of_fits _ _ _ hn (by omega) hfit]
  · intro hn
    constructor
    · rw [hF]
      simp only []
      rw [NewSectionReader_of_neg _ _ _ hn (lo _) (by omega)]
    · exact readsExactly_of_avail _ _ trivial (by simp only []; omega)
        (avail_to_end_file f 8 hsize)
  · intro hn
    constructor
    · rw [hS]
      simp only []
      rw [NewSectionReader_of_neg _ _ _ hn (lo _) (by omega)]
    · exact readsExactly_of_avail _ _ ⟨hb, hwf⟩ (by simp only []; omega)
        (avail_to_end_section s hb h0 8 hlim)

set_option maxRecDepth 100000 in
theorem readChunk_length_is_signed_witness :
    (readChunk topBitLengthFile).r = { bytes := topBitLengthFile.bytes, pos := 0 } ∧
      (readChunk framingSection).r = { framingSection with off := 23 } ∧
      ReadsExactly { r := ReaderAt.file topBitLengthFile.bytes, base := 8, off := 8,
                     limit := 9223372036854775807 } [0, 0, 0, 0, 0, 0, 0, 0] := by
  have h := readChunk_length_is_signed topBitLengthFile framingSection trivial (by decide)
    (by decide) (by decide) (by decide) (by decide) (by decide)
  exact ⟨by rw [h.1]; decide, by rw [h.2.1]; decide, (h.2.2.2.2.2.2.1 (by decide)).2⟩

/-- C15. End of chunks: called on a file whose cursor is at the end of the file, or on a
section whose cursor is at its limit, `readChunk` returns `io.EOF`; the scan loop then
ends normally, with the `commonChunk` and the `audio` source it had at that point. -/
theorem end_of_chunks (f : File) (s : SectionReader) (c : commonChunk)
    (au : Option SectionReader) (fuel : Nat) (hf : f.pos = f.bytes.length)
    (hwf : s.r.WF) (h0 : 0 ≤ s.off) (hs : s.off = s.limit) :
    (readChunk f).err = some Error.EOF ∧ (readChunk s).err = some Error.EOF ∧
      scanLoop (fuel + 1) s c au = some (Outcome.parsed c au) := by
  have af : f.avail.length = 0 := by
    unfold File.avail
    rw [List.length_drop]
    omega
  have as : s.avail.length = 0 := by
    have := s.avail_length_le
    omega
  have h1 := (readChunk_file_short f (by omega)).1
  have h2 := (readChunk_section_short s hwf h0 (by omega)).1
  rw [if_pos (by omega)] at h1 h2
  refine ⟨h1, h2, ?_⟩
  rw [scanLoop]
  simp only [h2]

theorem end_of_chunks_witness :
    (readChunk exhaustedFile).err = some Error.EOF ∧
      (readChunk exhaustedSection).err = some Error.EOF ∧
      scanLoop (0 + 1) exhaustedSection commonChunk.zero (some fillSource) =
        some (Outcome.parsed commonChunk.zero (some fillSource)) :=
  end_of_chunks exhaustedFile exhaustedSection commonChunk.zero (some fillSource) 0 rfl trivial
    (by decide) rfl

theorem scanLoop_skip (fuel : Nat) (data : SectionReader) (c : commonChunk)
    (au : Option SectionReader) (id : ID) (chunk r : SectionReader)
    (h : readChunk data = { id := id, data := some chunk, err := none, r := r })
    (h1 : id ≠ COMM) (h2 : id ≠ SSND) :
    scanLoop (fuel + 1) data c au = scanLoop fuel r c au := by
  rw [scanLoop, h]
  simp only [if_neg h1, if_neg h2]

theorem readChunk_loopData :
    readChunk loopData =
      { id := [74, 85, 78, 75],
        data := some { r := ReaderAt.sect loopData.r 8 20, base := 12, off := 12, limit := 9223372036854775807 },
        err := none, r := loopData } := by
  rfl

theorem scanLoop_loopData (fuel : Nat) (c : commonChunk) (au : Option SectionReader) :
    scanLoop fuel loopData c au = none := by
  induction fuel with
  | zero => rfl
  | succ k ih =>
    rw [scanLoop_skip k loopData c au _ _ _ readChunk_loopData (by decide) (by decide)]
    exact ih

theorem readChunk_loopFile :
    readChunk loopFile =
      { id := FORM,
        data := some { r := ReaderAt.file loopFile.bytes, base := 8, off := 8, limit := 20 },
        err := none, r := { bytes := loopFile.bytes, pos := 20 } } := by
  rfl

/-- C16 fails on the code: on a FORM/AIFF file whose chunk has the length bytes
FF FF FF F8 (-8 as `int32`) the seek in `readChunk` puts the cursor back on the chunk
header, every iteration of the scan loop reads that header again, and no number of
iterations ends the loop. -/
theorem scan_loop_never_ends (fuel : Nat) :
    loopFile.bytes.take 4 = FORM ∧ (loopFile.bytes.drop 8).take 4 = AIFF ∧
      (readChunk loopData).err = none ∧ (readChunk loopData).r = loopData ∧
      mainRead fuel loopFile = none := by
  refine ⟨by decide, by decide, by rw [readChunk_loopData], by rw [readChunk_loopData], ?_⟩
  rw [mainRead_of_readChunk fuel loopFile _ _ _ readChunk_loopFile]
  have hrd : SectionReader.Read
      { r := ReaderAt.file loopFile.bytes, base := 8, off := 8, limit := 20 } 4 =
      (AIFF, none, loopData) := by decide
  have n1 : ¬ (FORM ≠ FORM) := fun h => h rfl
  have n2 : ¬ (ID.fill FORM AIFF ≠ AIFF) := by decide
  rw [hrd, if_neg n1]
  simp only []
  rw [if_neg n2]
  exact scanLoop_loopData fuel _ _

theorem field_extract (l b : List Nat) (p : Nat) (hb : b.length = 4)
    (h : ∀ k, k < 4 → l[p + k]? = b[k]?) : (l.drop p).take 4 = b := by
  apply List.ext_getElem?
  intro k
  rw [List.getElem?_take, List.getElem?_drop]
  by_cases hk : k < 4
  · rw [if_pos hk, h k hk]
  · rw [if_neg hk, List.getElem?_eq_none (by omega)]

theorem finalized_field_bytes (l : List Nat) (e1 e2 e3 : List Nat) (h1 : e1.length = 4)
    (h2 : e2.length = 4) (h3 : e3.length = 4) (hlen : 46 ≤ l.length) :
    ((overwrite (overwrite (overwrite l 4 e1) 22 e2) 42 e3).drop 4).take 4 = e1 ∧
    ((overwrite (overwrite (overwrite l 4 e1) 22 e2) 42 e3).drop 22).take 4 = e2 ∧
    ((overwrite (overwrite (overwrite l 4 e1) 22 e2) 42 e3).drop 42).take 4 = e3 := by
  refine ⟨field_extract _ _ _ h1 ?_, field_extract _ _ _ h2 ?_, field_extract _ _ _ h3 ?_⟩
  · intro k hk
    have e : 4 + k - 4 = k := by omega
    rw [finalized_getElem? l e1 e2 e3 h1 h2 h3 hlen, if_pos (by omega), e]
  · intro k hk
    have e : 22 + k - 22 = k := by omega
    rw [finalized_getElem? l e1 e2 e3 h1 h2 h3 hlen, if_neg (by omega), if_pos (by omega), e]
  · intro k hk
    have e : 42 + k - 42 = k := by omega
    rw [finalized_getElem? l e1 e2 e3 h1 h2 h3 hlen, if_neg (by omega), if_neg (by omega),
      if_pos (by omega), e]

theorem encodeInt32_eq_PutUint32_mod (x : Int) :
    encodeInt32 (int32 x) = PutUint32 (x % 4294967296).toNat := by
  rw [encodeInt32_int32]
  rfl

theorem int32_Uint32_encodeInt32_any (x : Int) : int32 (Uint32 (encodeInt32 x)) = int32 x := by
  simp only [int32, Uint32, encodeInt32, PutUint32, uint32, List.getD_cons_zero,
    List.getD_cons_succ]
  omega

/-- C17. Size-field width: for every running sample count `N ≥ 0` (and an output file
holding at least the 46 bytes up to the last size field) the finalization block stores,
at offsets 4, 22 and 42, the four big-endian bytes of `46 + 4*N`, `N` and `4*N + 8`
modulo 2^32, that is of their `int32` conversions; read back as signed 32-bit values
the fields are those conversions, and the outer length read back equals `46 + 4*N`
exactly when `46 + 4*N < 2^31`. -/
theorem finalize_fields_are_32_bit (f : File) (N : Int) (hN : 0 ≤ N)
    (hlen : 46 ≤ f.bytes.length) :
    ∃ f1, mainFinalize f N = Except.ok f1 ∧
      (f1.bytes.drop 4).take 4 = PutUint32 ((46 + 4 * N) % 4294967296).toNat ∧
      (f1.bytes.drop 22).take 4 = PutUint32 (N % 4294967296).toNat ∧
      (f1.bytes.drop 42).take 4 = PutUint32 ((4 * N + 8) % 4294967296).toNat ∧
      (f1.bytes.drop 4).take 4 = encodeInt32 (int32 (4 + 8 + 18 + 8 + 8 + 4 * N)) ∧
      (f1.bytes.drop 22).take 4 = encodeInt32 (int32 N) ∧
      (f1.bytes.drop 42).take 4 = encodeInt32 (int32 (4 * N + 8)) ∧
      int32 (Uint32 ((f1.bytes.drop 4).take 4)) = int32 (46 + 4 * N) ∧
      int32 (Uint32 ((f1.bytes.drop 22).take 4)) = int32 N ∧
      int32 (Uint32 ((f1.bytes.drop 42).take 4)) = int32 (4 * N + 8) ∧
      (int32 (Uint32 ((f1.bytes.drop 4).take 4)) = 46 + 4 * N ↔ 46 + 4 * N < 2147483648) := by
  refine ⟨_, mainFinalize_eq f N hlen, ?_⟩
  obtain ⟨a, b, c⟩ := finalized_field_bytes f.bytes (encodeInt32 (46 + 4 * N)) (encodeInt32 N)
    (encodeInt32 (4 * N + 8)) rfl rfl rfl hlen
  simp only []
  have e0 : (4 : Int) + 8 + 18 + 8 + 8 + 4 * N = 46 + 4 * N := by ring
  rw [a, b, c, e0]
  refine ⟨?_, ?_, ?_, (encodeInt32_int32 _).symm, (encodeInt32_int32 _).symm,
    (encodeInt32_int32 _).symm, int32_Uint32_encodeInt32_any _, int32_Uint32_encodeInt32_any _,
    int32_Uint32_encodeInt32_any _, ?_⟩
  · rfl
  · rfl
  · rfl
  · rw [int32_Uint32_encodeInt32_any]
    unfold int32
    constructor
    · intro h; omega
    · intro h; omega

theorem finalize_fields_are_32_bit_witness :
    ∃ f1, mainFinalize (mainWriteHeader { bytes := [], pos := 0 }) 536870912 = Except.ok f1 ∧
      (f1.bytes.drop 4).take 4 = [128, 0, 0, 46] ∧
      int32 (Uint32 ((f1.bytes.drop 4).take 4)) = -2147483602 := by
  obtain ⟨f1, h, a, _, _, _, _, _, d, _⟩ := finalize_fields_are_32_bit
    (mainWriteHeader { bytes := [], pos := 0 }) 536870912 (by decide)
    (by rw [mainWriteHeader_eq]; decide)
  exact ⟨f1, h, by rw [a]; decide, by rw [d]; decide⟩

theorem processAudio_counters (g : Globals) (in_ out : List Int) (r : Globals × List Int)
    (hr : 0 ≤ g.remaining) (h : processAudio g in_ out = Except.ok r) :
    0 ≤ r.1.remaining ∧ r.1.remaining ≤ g.remaining ∧ g.nSamples ≤ r.1.nSamples := by
  unfold processAudio at h
  simp only [] at h
  split at h
  · cases h
  · split at h
    · cases h
      simp only []
      omega
    · cases h
    · cases h
      simp only []
      refine ⟨?_, ?_, ?_⟩
      · split <;> omega
      · split <;> omega
      · omega

theorem ReadAt_err_ne_sliceBounds (r : ReaderAt) :
    ∀ (n : Nat) (off : Int), (r.ReadAt n off).2 ≠ some Error.sliceBounds := by
  induction r with
  | file b =>
    intro n off
    simp only [ReaderAt.ReadAt, File.ReadAt]
    split
    · simp
    · simp only []
      split <;> simp
  | sect r base limit ih =>
    intro n off
    simp only [ReaderAt.ReadAt]
    split
    · simp
    · split
      · simp only []
        split
        · simp
        · exact ih _ _
      · exact ih _ _

theorem ReadAtLeastLoop_err_ne_sliceBounds (fuel : Nat) :
    ∀ (s : SectionReader) (need : Nat) (acc : List Nat),
      (ReadAtLeastLoop fuel s need acc).2.1 ≠ some Error.sliceBounds := by
  induction fuel with
  | zero =>
    intro s need acc
    simp [ReadAtLeastLoop]
  | succ k ih =>
    intro s need acc
    rw [ReadAtLeastLoop]
    split
    · simp
    · simp only [instRead_section]
      split
      · exact ih _ _ _
      · rename_i e he
        split
        · simp
        · split
          · simp
          · simp only []
            intro hc
            have : e = Error.sliceBounds := by simpa using hc
            subst this
            unfold SectionReader.Read at he
            split at he
            · simp at he
            · exact ReadAt_err_ne_sliceBounds _ _ _ he

theorem processAudio_no_slice_panic (g : Globals) (in_ out : List Int) (hr : 0 ≤ g.remaining) :
    processAudio g in_ out ≠ Except.error Error.sliceBounds := by
  intro h
  unfold processAudio at h
  simp only [] at h
  split at h
  · omega
  · generalize (if (out.length : Int) > g.remaining then g.remaining.toNat else out.length) = n
      at h
    split at h
    · cases h
    · rename_i e au hne heq
      cases h
      unfold binaryReadInt32s at heq
      split at heq
      · cases heq
      · split at heq
        · cases heq
        · simp only [] at heq
          split at heq
          · rename_i e2 he2
            cases heq
            exact ReadAtLeastLoop_err_ne_sliceBounds _ _ _ _ he2
          · cases heq
    · cases h

theorem runCallbacks_counters (calls : List (List Int × List Int)) :
    ∀ (g g1 : Globals), 0 ≤ g.remaining → runCallbacks g calls = Except.ok g1 →
      0 ≤ g1.remaining ∧ g1.remaining ≤ g.remaining ∧ g.nSamples ≤ g1.nSamples := by
  induction calls with
  | nil =>
    intro g g1 hr h
    simp only [runCallbacks] at h
    cases h
    omega
  | cons c rest ih =>
    intro g g1 hr h
    obtain ⟨in_, out⟩ := c
    simp only [runCallbacks] at h
    split at h
    · cases h
    · rename_i g2 out2 hstep
      obtain ⟨a1, a2, a3⟩ := processAudio_counters g in_ out _ hr hstep
      obtain ⟨b1, b2, b3⟩ := ih g2 g1 a1 h
      simp only [] at a1 a2 a3
      omega

theorem runCallbacks_no_slice_panic (calls : List (List Int × List Int)) :
    ∀ (g : Globals), 0 ≤ g.remaining →
      runCallbacks g calls ≠ Except.error Error.sliceBounds := by
  induction calls with
  | nil =>
    intro g _ h
    simp only [runCallbacks] at h
    cases h
  | cons c rest ih =>
    intro g hr h
    obtain ⟨in_, out⟩ := c
    simp only [runCallbacks] at h
    split at h
    · rename_i e hstep
      cases h
      exact processAudio_no_slice_panic g in_ out hr hstep
    · rename_i g2 out2 hstep
      exact ih g2 (processAudio_counters g in_ out _ hr hstep).1 h

/-- C18. Counter invariants: with `remaining` seeded with `S ≥ 0`, after any sequence of
callbacks that returns, `0 ≤ remaining ≤ S` and `nSamples` is at least what it was; a
further call, when it returns, leaves `remaining` no larger (and not negative) and
`nSamples` no smaller; the slice `out[:remaining]` is taken only when
`len(out) > remaining`, so with `0 ≤ remaining < len(out)`, and neither that call nor
any further sequence of calls ends in the slice-bound panic. -/
theorem counter_invariants (g g1 : Globals) (calls calls2 : List (List Int × List Int))
    (in_ out : List Int) (S : Int) (hS : 0 ≤ S) (hseed : g.remaining = S)
    (hrun : runCallbacks g calls = Except.ok g1) :
    0 ≤ g1.remaining ∧ g1.remaining ≤ S ∧ g.nSamples ≤ g1.nSamples ∧
      (∀ r, processAudio g1 in_ out = Except.ok r →
        0 ≤ r.1.remaining ∧ r.1.remaining ≤ g1.remaining ∧ g1.nSamples ≤ r.1.nSamples) ∧
      ((out.length : Int) > g1.remaining → 0 ≤ g1.remaining ∧ g1.remaining < out.length) ∧
      processAudio g1 in_ out ≠ Except.error Error.sliceBounds ∧
      runCallbacks g1 calls2 ≠ Except.error Error.sliceBounds := by
  obtain ⟨a1, a2, a3⟩ := runCallbacks_counters calls g g1 (by omega) hrun
  refine ⟨a1, by omega, a3, fun r h => processAudio_counters g1 in_ out r a1 h,
    fun h => ⟨a1, by omega⟩, processAudio_no_slice_panic g1 in_ out a1,
    runCallbacks_no_slice_panic calls2 g1 a1⟩

theorem counter_invariants_witness :
    0 ≤ fillEnd.remaining ∧ fillEnd.remaining ≤ 2 ∧
      fillStart.nSamples ≤ fillEnd.nSamples ∧
      (∀ r, processAudio fillEnd [1] [0, 0] = Except.ok r →
        0 ≤ r.1.remaining ∧ r.1.remaining ≤ fillEnd.remaining ∧
          fillEnd.nSamples ≤ r.1.nSamples) ∧
      ((([0, 0] : List Int).length : Int) > fillEnd.remaining →
        0 ≤ fillEnd.remaining ∧ fillEnd.remaining < ([0, 0] : List Int).length) ∧
      processAudio fillEnd [1] [0, 0] ≠ Except.error Error.sliceBounds ∧
      runCallbacks fillEnd captureCalls ≠ Except.error Error.sliceBounds :=
  counter_invariants fillStart fillEnd [([5], [7, 7, 7])] captureCalls [1] [0, 0] 2 (by decide)
    rfl (by rfl)

end Rrtcp
